import Mathlib

/-!
Shallow embedding of the CtxIQ `ConversationSession` core
(`src/core/ConversationSession.ts`) and proofs about the properties its
specification states.

Modelling conventions:
* JS `number` token counts and timestamps are modelled as `Nat`
  (token costs and `Date.now()` values are non-negative integers);
  array indices that can be `-1` in JS (`indexOf`) are modelled as `Int`.
* `Map<string, Message>` is modelled as an insertion-ordered association
  list `List Message` keyed by the `id` field (`Map.set` replaces in place,
  otherwise appends; `Array.from(map.values())` is the list itself).
* `Set<string>` is modelled as an insertion-ordered duplicate-free
  `List String` (`new Set(arr)` keeps first occurrences; `Array.from(set)`
  is the list itself; `set.delete` erases the occurrence).
* `Date.now()` and `crypto.randomUUID()` are nondeterministic, so every
  operation that consults them takes the sampled value (`now : Nat`,
  `fresh : String`) as an explicit argument.
* `throw` is modelled by `Except String`; the injected hooks are total
  Lean functions (a hook that itself throws is outside the model).
* The float `SUMMARY_RESERVE_RATIO` is modelled as a rational (`ℚ`).
-/

inductive Role where
  | user
  | assistant
  | system
  | summary
deriving DecidableEq, Repr

/-- The `Message` record of `src/types/index.ts`; `summaryOf?: Set<string>`
is an optional insertion-ordered set of ids. -/
structure Message where
  id : String
  role : Role
  content : String
  tokens : Nat
  timestamp : Nat
  summaryOf : Option (List String) := none
deriving DecidableEq, Repr

/-- The session state of the `ConversationSession` class: the two keyed
collections, the unified `messageOrder`, scalar metadata, and the injected
hooks (`llmFormatter` is irrelevant to the verified operations and omitted).
`reserveRatio` models the `SUMMARY_RESERVE_RATIO` field. -/
structure Session where
  id : String
  createdAt : Nat
  lastModifiedAt : Nat
  sessionName : String
  messages : List Message
  summaries : List Message
  messageCounter : Nat
  useSequentialIds : Bool
  messageOrder : List String
  reserveRatio : ℚ
  summaryFn : Option (List Message → Nat → Message)
  windowTokenLimit : Nat
  tokenCounterFn : Option (String → Int)

-- ─── JS helper semantics ─────────────────────────────────────────────────

/-- `map.get(k)` on an id-keyed association list. -/
def mapGet (l : List Message) (k : String) : Option Message :=
  l.find? (fun m => m.id = k)

/-- `map.set(k, v)`: replace in place when the key is present, else append
(JS `Map` keeps the original insertion position on overwrite). -/
def mapSet (l : List Message) (k : String) (v : Message) : List Message :=
  if l.any (fun m => m.id = k) then
    l.map (fun m => if m.id = k then v else m)
  else l ++ [v]

/-- `map.delete(k)`: drop the entry with the key (keys are unique in a JS
`Map`, so removing the first occurrence is exact). -/
def mapDelete (l : List Message) (k : String) : List Message :=
  l.eraseP (fun m => m.id = k)

/-- `map.has(k)` / `map.delete(k)`'s return value. -/
def mapHas (l : List Message) (k : String) : Bool :=
  l.any (fun m => m.id = k)

/-- `new Set(arr)`: deduplicate keeping first occurrences in order. -/
def jsSetOfList (l : List String) : List String :=
  l.foldl (fun acc x => if x ∈ acc then acc else acc ++ [x]) []

/-- `arr.indexOf(x)`: first index, `-1` when absent. -/
def jsIndexOf (l : List String) (x : String) : Int :=
  match l.findIdx? (fun y => y = x) with
  | some i => (i : Int)
  | none => -1

/-- `arr.splice(i, 0, x)`: insert `x` at index `i` (appends when `i` is past
the end, as JS does). -/
def insertAt (i : Nat) (x : String) (l : List String) : List String :=
  l.take i ++ [x] ++ l.drop i

/-- `const idx = order.indexOf(id); if (idx !== -1) order.splice(idx, 1)`:
remove the first occurrence of `id` when present. -/
def removeFirst (l : List String) (x : String) : List String :=
  l.erase x

-- ─── Session primitives ──────────────────────────────────────────────────

/-- `bumpModified()`: take the current clock value but force strict growth
(`if (now <= this.lastModifiedAt) now = this.lastModifiedAt + 1`). -/
def bumpModified (now : Nat) (s : Session) : Session :=
  { s with lastModifiedAt :=
      if now ≤ s.lastModifiedAt then s.lastModifiedAt + 1 else now }

/-- `generateMessageId()`: sequential `msg-N` ids when `useSequentialIds`,
otherwise the sampled random UUID `fresh`. -/
def generateMessageId (fresh : String) (s : Session) : String × Session :=
  if s.useSequentialIds then
    ("msg-" ++ toString (s.messageCounter + 1),
      { s with messageCounter := s.messageCounter + 1 })
  else (fresh, s)

/-- The naïve fallback counter of `countTokensInMessage`: collapse line
breaks, split on whitespace, count the non-empty pieces (for counting this
equals splitting directly on whitespace). -/
def naiveTokenCount (text : String) : Nat :=
  ((text.split (fun c => c.isWhitespace)).filter (fun w => w ≠ "")).length

/-- `countTokensInMessage(text)`: trust a configured counter only when it
returns a positive integer, otherwise fall back to the naïve count (the
`try/catch` around a throwing counter is outside the pure model). -/
def countTokensInMessage (s : Session) (text : String) : Nat :=
  match s.tokenCounterFn with
  | some f => let c := f text; if 0 < c then c.toNat else naiveTokenCount text
  | none => naiveTokenCount text

/-- `isSummaryMessage(msg)`. -/
def isSummaryMessage (m : Message) : Bool :=
  m.role = Role.summary

/-- `isMessageSummarized(msg)`: some summary's `summaryOf` contains the id
(`summary.summaryOf?.has(msg.id)`; an absent set never matches). -/
def isMessageSummarized (s : Session) (m : Message) : Bool :=
  s.summaries.any (fun sum => m.id ∈ sum.summaryOf.getD [])

-- ─── addSummary / addMessage ─────────────────────────────────────────────

/-- Core of `addSummary(summary)`. Returns the stored (mutated) summary
record, or `none` when the oversized-summary gate skipped it (the gate
fires before any mutation and returns without emitting or bumping).
The stored record has the generated id, role forced to `summary`, tokens
recomputed when falsy, and `summaryOf` normalized to a set. Placement:
when `summaryOf` is non-empty, the id is spliced right after the maximal
`indexOf` position of the covered ids (the splice index is computed before
the defensive removal of a prior occurrence of the new id, exactly as the
source does); otherwise, or when no covered id is found, it is appended. -/
def addSummaryCore (fresh : String) (now : Nat) (summary : Message)
    (s : Session) : Option Message × Session :=
  if s.windowTokenLimit > 0 ∧ summary.tokens > s.windowTokenLimit then
    (none, s)
  else
    let (id, s₁) := generateMessageId fresh s
    let tokens :=
      if summary.tokens ≠ 0 then summary.tokens
      else countTokensInMessage s₁ summary.content
    let so := summary.summaryOf.map jsSetOfList
    let sum' : Message :=
      { summary with
        id := id
        role := Role.summary
        tokens := tokens
        summaryOf := so }
    let summaries := mapSet s₁.summaries id sum'
    let order := s₁.messageOrder
    let order' :=
      match so with
      | some ids =>
        if ids.length > 0 then
          let lastIndex : Int := (ids.map (jsIndexOf order)).foldl max (-1)
          if 0 ≤ lastIndex then
            insertAt (lastIndex + 1).toNat id (removeFirst order id)
          else removeFirst order id ++ [id]
        else removeFirst order id ++ [id]
      | none => removeFirst order id ++ [id]
    (some sum',
      bumpModified now
        { s₁ with
          summaries := summaries
          messageOrder := order' })

/-- `addSummary(summary)` as a state transformer. -/
def addSummary (fresh : String) (now : Nat) (summary : Message)
    (s : Session) : Session :=
  (addSummaryCore fresh now summary s).2

/-- `addMessage(message)`: summaries are delegated to `addSummary`;
otherwise assign a fresh id, compute tokens when falsy, store, and append
the id to `messageOrder` (after a defensive removal of a prior occurrence). -/
def addMessage (fresh : String) (now : Nat) (message : Message)
    (s : Session) : Session :=
  if isSummaryMessage message then addSummary fresh now message s
  else
    let (id, s₁) := generateMessageId fresh s
    let tokens :=
      if message.tokens ≠ 0 then message.tokens
      else countTokensInMessage s₁ message.content
    let m' : Message := { message with id := id, tokens := tokens }
    bumpModified now
      { s₁ with
        messages := mapSet s₁.messages id m'
        messageOrder := removeFirst s₁.messageOrder id ++ [id] }

-- ─── Reads ───────────────────────────────────────────────────────────────

/-- `getMessages()`: resolve `messageOrder` against the raw-message map. -/
def getMessages (s : Session) : List Message :=
  s.messageOrder.filterMap (fun id => mapGet s.messages id)

/-- `getMessageById(id)`. -/
def getMessageById (s : Session) (id : String) : Option Message :=
  mapGet s.messages id

/-- `getSummaries()`. -/
def getSummaries (s : Session) : List Message :=
  s.messageOrder.filterMap (fun id => mapGet s.summaries id)

/-- The `messages.get(id) || summaries.get(id)` lookup used when resolving
an entry of `messageOrder`. -/
def jsLookup (s : Session) (id : String) : Option Message :=
  (mapGet s.messages id).or (mapGet s.summaries id)

-- ─── Deletion / editing ──────────────────────────────────────────────────

/-- `deleteSummary(id)`: drop from the summary map and from `messageOrder`;
always bumps, returns whether it existed. -/
def deleteSummary (now : Nat) (id : String) (s : Session) : Bool × Session :=
  let existed := mapHas s.summaries id
  let s' :=
    if existed then
      { s with
        summaries := mapDelete s.summaries id
        messageOrder := removeFirst s.messageOrder id }
    else s
  (existed, bumpModified now s')

/-- The `for (const summary of this.summaries.values())` cleanup loop of
`deleteMessage`: visiting each summary (by its id, snapshot at entry —
the loop only ever deletes the summary it is visiting, so the live-map
iteration visits exactly the entry ids present at entry), remove `delId`
from its `summaryOf` set, and delete the summary when the set becomes
empty (`summaryOf?.size === 0`; an absent set never triggers deletion). -/
def cleanupSummaries (now : Nat) (delId : String) :
    List String → Session → Session
  | [], s => s
  | sid :: rest, s =>
    match (mapGet s.summaries sid) with
    | none => cleanupSummaries now delId rest s
    | some sum =>
      let so' := sum.summaryOf.map (fun l => l.erase delId)
      let s₁ :=
        { s with summaries :=
            s.summaries.map (fun m =>
              if m.id = sid then { sum with summaryOf := so' } else m) }
      let s₂ := if so' = some [] then (deleteSummary now sid s₁).2 else s₁
      cleanupSummaries now delId rest s₂

/-- `deleteMessage(id)`: remove from the raw map and `messageOrder`, strip
the id from every summary's `summaryOf` (deleting summaries that become
empty), bump, and report whether the message existed. -/
def deleteMessage (now : Nat) (id : String) (s : Session) : Bool × Session :=
  let existed := mapHas s.messages id
  if existed then
    let s₁ :=
      { s with
        messages := mapDelete s.messages id
        messageOrder := removeFirst s.messageOrder id }
    let s₂ := cleanupSummaries now id (s₁.summaries.map (fun m => m.id)) s₁
    (true, bumpModified now s₂)
  else (false, bumpModified now s)

/-- `editMessage(id, newMsg)`: force `newMsg.id = id` and `map.set` it;
`messageOrder` and the summaries are untouched. -/
def editMessage (now : Nat) (id : String) (newMsg : Message)
    (s : Session) : Session :=
  bumpModified now
    { s with messages := mapSet s.messages id { newMsg with id := id } }

-- ─── Bulk operations ─────────────────────────────────────────────────────

/-- `setMessages(list)`: clear the raw map, insert the given messages under
their own ids, drop the old ids from `messageOrder` and append the new. -/
def setMessages (now : Nat) (msgs : List Message) (s : Session) : Session :=
  let oldIds := s.messages.map (fun m => m.id)
  bumpModified now
    { s with
      messages := msgs.foldl (fun acc m => mapSet acc m.id m) []
      messageOrder :=
        (s.messageOrder.filter (fun id => id ∉ oldIds))
          ++ msgs.map (fun m => m.id) }

/-- `setSummaries(list)`: drop old summary ids from `messageOrder`, clear
the summary map, then store each new summary and append its id (after a
defensive removal of a prior occurrence). -/
def setSummaries (now : Nat) (sums : List Message) (s : Session) : Session :=
  let order₀ := s.messageOrder.filter (fun id => ¬ mapHas s.summaries id)
  let (sums', order') :=
    sums.foldl
      (fun (acc : List Message × List String) sum =>
        (mapSet acc.1 sum.id sum, removeFirst acc.2 sum.id ++ [sum.id]))
      ([], order₀)
  bumpModified now { s with summaries := sums', messageOrder := order' }

/-- `clearMessages()`. -/
def clearMessages (now : Nat) (s : Session) : Session :=
  let oldIds := s.messages.map (fun m => m.id)
  bumpModified now
    { s with
      messages := []
      messageOrder := s.messageOrder.filter (fun id => id ∉ oldIds) }

/-- `clearSummaries()`. -/
def clearSummaries (now : Nat) (s : Session) : Session :=
  bumpModified now
    { s with
      summaries := []
      messageOrder :=
        s.messageOrder.filter (fun id => ¬ mapHas s.summaries id) }

-- ─── Window selector ─────────────────────────────────────────────────────

/-- The inner `while (tokenCount > windowTokenLimit) { tokenCount -=
messages[l].tokens; l += 1; }` of `getMessageWindow`. `l` moves right one
step per iteration and, in every reachable state, the running sum is the
sum of the window `[l..r]`, so the loop stops at the latest when `l` has
passed the whole array (the sum is then `0`); the recursion is bounded by
the remaining array length, which the loop cannot exhaust while its guard
holds. -/
def whileShrink (limit : Nat) (msgs : List Message) :
    Nat → Nat → Nat → Nat × Nat
  | 0, l, tokenCount => (l, tokenCount)
  | fuel + 1, l, tokenCount =>
    if h : limit < tokenCount ∧ l < msgs.length then
      whileShrink limit msgs fuel (l + 1)
        (tokenCount - (msgs.get ⟨l, h.2⟩).tokens)
    else (l, tokenCount)

/-- The outer `for (let r = 0; ...)` loop of `getMessageWindow`: fold the
two-pointer state `(l, tokenCount)` over the messages. -/
def windowScan (limit : Nat) (msgs : List Message) : Nat × Nat :=
  msgs.foldl
    (fun st m => whileShrink limit msgs (msgs.length - st.1) st.1 (st.2 + m.tokens))
    (0, 0)

/-- `getMessageWindow(windowTokenLimit, messages)`: the result pair is
`(overflow, fitting) = (messages.slice(0, l), messages.slice(l))`. -/
def getMessageWindow (limit : Nat) (msgs : List Message) :
    List Message × List Message :=
  let l := (windowScan limit msgs).1
  (msgs.take l, msgs.drop l)

-- ─── Compaction ──────────────────────────────────────────────────────────

/-- `getCompactedMessages()`: walk `messageOrder` backwards accumulating
`(result, covered)` — summaries are pushed and mark their `summaryOf` ids
covered, raw messages are pushed only when not yet covered — and reverse
the result at the end. -/
def getCompactedMessages (s : Session) : List Message :=
  let step := fun (acc : List Message × List String) (id : String) =>
    match jsLookup s id with
    | none => acc
    | some msg =>
      if isSummaryMessage msg then
        (acc.1 ++ [msg], acc.2 ++ msg.summaryOf.getD [])
      else if id ∈ acc.2 then acc
      else (acc.1 ++ [msg], acc.2)
  ((s.messageOrder.reverse.foldl step ([], [])).1).reverse

-- ─── Prompt builder ──────────────────────────────────────────────────────

/-- The reserve computation of `buildPrompt` step 5:
`Math.max(1, Math.floor(remainingLimit * SUMMARY_RESERVE_RATIO))`. -/
def reserveOf (remainingLimit : Nat) (ratio : ℚ) : Nat :=
  (max 1 ⌊(remainingLimit : ℚ) * ratio⌋).toNat

/-- `buildPrompt(windowTokenLimit, fallbackToTruncation)`. Mirrors the
source step by step; `throw` is `Except.error`. The returned list and the
post-state are paired, because step 9 persists the freshly generated
summary via `addSummary` (whose in-place mutation of the summary record is
reflected by using the stored record in the returned list when it was not
skipped by the oversized-summary gate). -/
def buildPrompt (fresh : String) (now : Nat) (limit : Nat)
    (fallbackToTruncation : Bool) (s : Session) :
    Except String (List Message × Session) :=
  let allMessages := getCompactedMessages s
  let systemMessages := allMessages.filter (fun m => m.role = Role.system)
  let nonSystemMessages := allMessages.filter (fun m => m.role ≠ Role.system)
  let systemTokenCount := (systemMessages.map (fun m => m.tokens)).sum
  -- `Math.max(1, windowTokenLimit - systemTokenCount)` (truncated
  -- subtraction on `Nat` agrees with the JS value once clamped to ≥ 1)
  let remainingLimit := max 1 (limit - systemTokenCount)
  match s.summaryFn with
  | none =>
    Except.ok (systemMessages ++ (getMessageWindow remainingLimit nonSystemMessages).2, s)
  | some f =>
    let reserve := reserveOf remainingLimit s.reserveRatio
    let usable : Int := (remainingLimit : Int) - (reserve : Int)
    if usable ≤ 0 then Except.ok (systemMessages, s)
    else
      let fitting := (getMessageWindow usable.toNat nonSystemMessages).2
      let overflow := (getMessageWindow usable.toNat nonSystemMessages).1
      if overflow = [] then Except.ok (systemMessages ++ fitting, s)
      else
        let allCovered := overflow.all (fun m => isMessageSummarized s m)
        let existingSummary :=
          if allCovered then
            s.summaries.find? (fun sum =>
              overflow.all (fun m => m.id ∈ sum.summaryOf.getD []))
          else none
        match existingSummary with
        | some e =>
          if e.tokens ≤ reserve then
            Except.ok (systemMessages ++ e :: fitting, s)
          else if fallbackToTruncation then
            Except.ok
              (systemMessages ++ (getMessageWindow remainingLimit nonSystemMessages).2, s)
          else Except.error "Existing summary exceeds reserved budget"
        | none =>
          let raw := f (overflow.filter (fun m => m.role ≠ Role.system)) reserve
          let summaryMsg : Message :=
            { raw with
              summaryOf := some (jsSetOfList (overflow.map (fun m => m.id)))
              role := Role.summary }
          if reserve < summaryMsg.tokens then
            if fallbackToTruncation then
              Except.ok
                (systemMessages ++ (getMessageWindow remainingLimit nonSystemMessages).2, s)
            else Except.error "Summary exceeds reserved budget"
          else
            let (stored, s') := addSummaryCore fresh now summaryMsg s
            Except.ok (systemMessages ++ stored.getD summaryMsg :: fitting, s')

-- ─── Serialization ───────────────────────────────────────────────────────

/-- The `SerializedSession` shape of `src/types/index.ts`; with sets
modelled as lists, `SerializedMessage` coincides with `Message`
(`serializeSet = Array.from` is the identity on the model). -/
structure SerializedSession where
  id : String
  createdAt : Nat
  lastModifiedAt : Nat
  sessionName : String
  reservePercentage : ℚ
  windowTokenLimit : Nat
  useSequentialIds : Bool
  messageOrder : List String
  messages : List Message
  summaries : List Message
deriving Repr

/-- `toJSON()`: scalar fields, a copy of `messageOrder`, and the two maps
flattened to arrays of entries with `summaryOf` serialized
(`Array.from(set)`, the identity here; absent stays absent). -/
def toJSON (s : Session) : SerializedSession :=
  { id := s.id
    createdAt := s.createdAt
    lastModifiedAt := s.lastModifiedAt
    sessionName := s.sessionName
    reservePercentage := s.reserveRatio
    windowTokenLimit := s.windowTokenLimit
    useSequentialIds := s.useSequentialIds
    messageOrder := s.messageOrder
    messages := s.messages.map (fun m => { m with summaryOf := m.summaryOf })
    summaries := s.summaries.map (fun m => { m with summaryOf := m.summaryOf }) }

/-- `deserializeSet(arr) = new Set(arr ?? [])`: an absent array becomes an
empty set, a present one is deduplicated. -/
def deserializeSet (arr : Option (List String)) : Option (List String) :=
  some (jsSetOfList (arr.getD []))

/-- `fromJSON(json)`: restore scalars and `messageOrder`, clear both maps,
and re-insert every serialized entry under its own id with `summaryOf`
deserialized. Hooks and the id counter are untouched. -/
def fromJSON (s : Session) (json : SerializedSession) : Session :=
  { s with
    id := json.id
    createdAt := json.createdAt
    lastModifiedAt := json.lastModifiedAt
    sessionName := json.sessionName
    reserveRatio := json.reservePercentage
    windowTokenLimit := json.windowTokenLimit
    useSequentialIds := json.useSequentialIds
    messageOrder := json.messageOrder
    messages :=
      json.messages.foldl
        (fun acc m => mapSet acc m.id { m with summaryOf := deserializeSet m.summaryOf }) []
    summaries :=
      json.summaries.foldl
        (fun acc m => mapSet acc m.id { m with summaryOf := deserializeSet m.summaryOf }) [] }

-- ─── Clone ───────────────────────────────────────────────────────────────

/-- `clone(id, name?)`: a fresh session (new timestamps, counter reset,
only `reservePercentage` and the summarizer passed through the
constructor config) that then receives shallow copies (`{ ...msg }`) of
every message and summary, a copy of `messageOrder`, and the
`useSequentialIds` / `windowTokenLimit` flags. `name || default` treats
the empty string as absent, as JS falsiness does. -/
def clone (newId : String) (name : Option String) (now : Nat)
    (s : Session) : Session :=
  { id := newId
    createdAt := now
    lastModifiedAt := now
    sessionName :=
      match name with
      | some n => if n = "" then s.sessionName ++ " (Clone)" else n
      | none => s.sessionName ++ " (Clone)"
    messages := s.messages
    summaries := s.summaries
    messageCounter := 0
    useSequentialIds := s.useSequentialIds
    messageOrder := s.messageOrder
    reserveRatio := s.reserveRatio
    summaryFn := s.summaryFn
    windowTokenLimit := s.windowTokenLimit
    tokenCounterFn := none }

-- ─── The reference-sharing refinement used for the clone analysis ────────

/-- A message record as the JS heap sees it: the `summaryOf` field is a
*reference* to a `Set` object living in a shared store. The spread
`{ ...msg }` used by `clone` copies the record fields, hence copies the
reference and shares the set. -/
structure MessageRef where
  id : String
  role : Role
  content : String
  tokens : Nat
  timestamp : Nat
  summaryOf : Option Nat := none
deriving DecidableEq, Repr

/-- The store of live `Set<string>` objects, keyed by reference. -/
def SetStore := List (Nat × List String)

/-- Read a set object from the store (`[]` for a dangling reference,
which does not occur in the scenarios considered). -/
def storeGet (st : SetStore) (r : Nat) : List String :=
  ((st.find? (fun p => p.1 = r)).map (fun p => p.2)).getD []

/-- Mutate a set object in the store (`set.delete(x)` on the object the
reference designates — every holder of the reference observes it). -/
def storeErase (st : SetStore) (r : Nat) (x : String) : SetStore :=
  st.map (fun p => if p.1 = r then (p.1, p.2.erase x) else p)

/-- Session state in the reference-sharing refinement. -/
structure SessionRef where
  messages : List MessageRef
  summaries : List MessageRef
  messageOrder : List String
deriving DecidableEq, Repr

/-- `clone` restricted to the collections: `for (const [id, m] of
this.messages.entries()) cloned.messages.set(id, { ...m })` — record
copies, shared `summaryOf` references — and a copied `messageOrder`. -/
def cloneRef (s : SessionRef) : SessionRef :=
  { messages := s.messages.map (fun m => { m with id := m.id })
    summaries := s.summaries.map (fun m => { m with id := m.id })
    messageOrder := s.messageOrder }

/-- `deleteMessage(id)` in the refinement, acting on a session together
with the shared store: remove the raw message and its order entry, then
`summary.summaryOf?.delete(id)` on every summary — a store mutation —
deleting summaries whose set becomes empty. -/
def deleteMessageRef (id : String) (s : SessionRef) (st : SetStore) :
    SessionRef × SetStore :=
  if s.messages.any (fun m => m.id = id) then
    let st' :=
      s.summaries.foldl
        (fun acc m => match m.summaryOf with
          | some r => storeErase acc r id
          | none => acc) st
    ({ messages := s.messages.eraseP (fun m => m.id = id)
       summaries :=
         s.summaries.filter (fun m =>
           match m.summaryOf with
           | some r => ¬ storeGet st' r = []
           | none => true)
       messageOrder :=
         (s.messageOrder.erase id).filter (fun oid =>
           ¬ s.summaries.any (fun m =>
             m.id == oid && (match m.summaryOf with
               | some r => storeGet st' r == []
               | none => false))) }, st')
  else (s, st)

-- ─── Message equivalence used by the round-trip statement ────────────────

/-- The ids of an association list of messages. -/
def msgIds (l : List Message) : List String := l.map (fun m => m.id)

/-- Content equality of two messages as the specification's round-trip
property compares them: all scalar fields equal and `summaryOf` equal *as
sets* (same membership; an absent set and an empty set cover the same —
empty — collection of ids). -/
def msgEquiv (a b : Message) : Prop :=
  a.id = b.id ∧ a.role = b.role ∧ a.content = b.content ∧
  a.tokens = b.tokens ∧ a.timestamp = b.timestamp ∧
  ∀ x, x ∈ a.summaryOf.getD [] ↔ x ∈ b.summaryOf.getD []

/-- The per-entry normalization `fromJSON` applies when re-inserting a
serialized entry. -/
def normMsg (m : Message) : Message :=
  { m with summaryOf := deserializeSet m.summaryOf }

-- ─── Specification-side compaction (for the refinement comparison) ───────

/-- Modelled from the spec's words for the compaction claim: a raw message
is "covered" when *some summary occurring later in the order* (scanning
from the end, later summaries take precedence) lists its id in
`summaryOf`. `rest` is the part of `messageOrder` after the message. -/
def specCovered (s : Session) (rest : List String) (x : String) : Bool :=
  rest.any (fun j =>
    match jsLookup s j with
    | some m => isSummaryMessage m && decide (x ∈ m.summaryOf.getD [])
    | none => false)

/-- Modelled from the spec's words: the `messageOrder` sequence with each
summary kept in place and every raw message covered by a later summary
dropped. -/
def specCompact (s : Session) : List String → List Message
  | [] => []
  | id :: rest =>
    match jsLookup s id with
    | none => specCompact s rest
    | some m =>
      if isSummaryMessage m then m :: specCompact s rest
      else if specCovered s rest id then specCompact s rest
      else m :: specCompact s rest

-- ─── Concrete fixtures used by witnesses and counterexamples ─────────────

/-- A message literal builder for fixtures. -/
def mkMsg (idv : String) (r : Role) (c : String) (tok ts : Nat)
    (so : Option (List String) := none) : Message :=
  { id := idv, role := r, content := c, tokens := tok, timestamp := ts,
    summaryOf := so }

/-- An empty session fixture (sequential ids, no hooks). -/
def emptySession : Session :=
  { id := "session-1", createdAt := 0, lastModifiedAt := 0,
    sessionName := "Test", messages := [], summaries := [],
    messageCounter := 0, useSequentialIds := true, messageOrder := [],
    reserveRatio := 1, summaryFn := none, windowTokenLimit := 0,
    tokenCounterFn := none }

/-- The compaction example of the specification: raw `A,B,C`, a summary
covering all three (inserted after `C`), then raw `D` — built through the
session operations themselves. -/
def compactExample : Session :=
  addMessage "" 5 (mkMsg "" Role.user "D" 1 5)
    (addSummary "" 4
      (mkMsg "" Role.summary "Summ ABC" 2 4 (some ["msg-1", "msg-2", "msg-3"]))
      (addMessage "" 3 (mkMsg "" Role.user "C" 1 3)
        (addMessage "" 2 (mkMsg "" Role.user "B" 1 2)
          (addMessage "" 1 (mkMsg "" Role.user "A" 1 1) emptySession))))

/-- The per-summary update performed by `deleteMessage`'s cleanup loop:
`summary.summaryOf?.delete(id)`. -/
def stripId (delId : String) (σ : Message) : Message :=
  { σ with summaryOf := σ.summaryOf.map (fun l => l.erase delId) }

/-- The exact condition under which `buildPrompt` reaches a `throw`,
mirrored from its branches: a summarizer is configured, there is usable
space and a non-empty overflow, and the summary consulted on the taken
path — the matching existing summary if one is found, otherwise the
freshly generated one — costs strictly more than the reserved budget. -/
def promptOverBudget (limit : Nat) (s : Session) : Prop :=
  match s.summaryFn with
  | none => False
  | some f =>
    let allMessages := getCompactedMessages s
    let systemMessages := allMessages.filter (fun m => m.role = Role.system)
    let nonSystemMessages := allMessages.filter (fun m => m.role ≠ Role.system)
    let systemTokenCount := (systemMessages.map (fun m => m.tokens)).sum
    let remainingLimit := max 1 (limit - systemTokenCount)
    let reserve := reserveOf remainingLimit s.reserveRatio
    let usable : Int := (remainingLimit : Int) - (reserve : Int)
    if usable ≤ 0 then False
    else
      let overflow := (getMessageWindow usable.toNat nonSystemMessages).1
      if overflow = [] then False
      else
        let allCovered := overflow.all (fun m => isMessageSummarized s m)
        let existingSummary :=
          if allCovered then
            s.summaries.find? (fun sum =>
              overflow.all (fun m => m.id ∈ sum.summaryOf.getD []))
          else none
        match existingSummary with
        | some e => ¬ e.tokens ≤ reserve
        | none =>
          let raw := f (overflow.filter (fun m => m.role ≠ Role.system)) reserve
          let summaryMsg : Message :=
            { raw with
              summaryOf := some (jsSetOfList (overflow.map (fun m => m.id)))
              role := Role.summary }
          reserve < summaryMsg.tokens

-- ─── The mutating operations, enumerated for the monotonicity claim ──────

/-- The mutating operations of the session API (add/edit/delete/clear/
replace of messages or summaries), with the nondeterministic inputs
(generated id, payloads) as data. -/
inductive MutOp where
  | addMessageOp (fresh : String) (m : Message)
  | addSummaryOp (fresh : String) (m : Message)
  | editMessageOp (id : String) (m : Message)
  | deleteMessageOp (id : String)
  | deleteSummaryOp (id : String)
  | setMessagesOp (ms : List Message)
  | setSummariesOp (ms : List Message)
  | clearMessagesOp
  | clearSummariesOp

/-- Dispatch a mutating operation at clock value `now`. -/
def applyMutOp : MutOp → Nat → Session → Session
  | MutOp.addMessageOp fresh m, now, s => addMessage fresh now m s
  | MutOp.addSummaryOp fresh m, now, s => addSummary fresh now m s
  | MutOp.editMessageOp id m, now, s => editMessage now id m s
  | MutOp.deleteMessageOp id, now, s => (deleteMessage now id s).2
  | MutOp.deleteSummaryOp id, now, s => (deleteSummary now id s).2
  | MutOp.setMessagesOp ms, now, s => setMessages now ms s
  | MutOp.setSummariesOp ms, now, s => setSummaries now ms s
  | MutOp.clearMessagesOp, now, s => clearMessages now s
  | MutOp.clearSummariesOp, now, s => clearSummaries now s

/-- The one mutating call that returns without bumping `lastModifiedAt`:
a summary add (directly, or through `addMessage` with a summary-role
payload) that the oversized-summary gate rejects. -/
def rejectedSummaryAdd (op : MutOp) (s : Session) : Prop :=
  match op with
  | MutOp.addSummaryOp _ m =>
      s.windowTokenLimit > 0 ∧ m.tokens > s.windowTokenLimit
  | MutOp.addMessageOp _ m =>
      m.role = Role.summary ∧ s.windowTokenLimit > 0 ∧
        m.tokens > s.windowTokenLimit
  | _ => False

/-- The failing input for the clone-independence claim: a source session
holding two raw messages and one summary whose `summaryOf` is the `Set`
object at store reference `0`. -/
def cloneBugSource : SessionRef :=
  { messages := [
      { id := "msg-1", role := Role.user, content := "A", tokens := 1,
        timestamp := 1, summaryOf := none },
      { id := "msg-2", role := Role.user, content := "B", tokens := 1,
        timestamp := 2, summaryOf := none }]
    summaries := [
      { id := "msg-3", role := Role.summary, content := "S", tokens := 1,
        timestamp := 3, summaryOf := some 0 }]
    messageOrder := ["msg-1", "msg-2", "msg-3"] }

/-- The shared heap for the failing input: the one live `Set` object
`{"msg-1", "msg-2"}` at reference `0`. -/
def cloneBugStore : SetStore :=
  [(0, ["msg-1", "msg-2"])]

-- ─── General lemmas ──────────────────────────────────────────────────────

theorem jsSetOfList_aux (l : List String) (acc : List String) (x : String) :
    x ∈ l.foldl (fun acc y => if y ∈ acc then acc else acc ++ [y]) acc ↔
      x ∈ acc ∨ x ∈ l := by
  induction l generalizing acc with
  | nil => simp
  | cons y ys ih =>
    simp only [List.foldl_cons]
    by_cases hy : y ∈ acc
    · simp only [if_pos hy, ih]
      constructor
      · rintro (h | h)
        · exact Or.inl h
        · exact Or.inr (List.mem_cons_of_mem _ h)
      · rintro (h | h)
        · exact Or.inl h
        · rcases List.mem_cons.1 h with rfl | h
          · exact Or.inl hy
          · exact Or.inr h
    · simp only [if_neg hy, ih, List.mem_append, List.mem_singleton,
        List.mem_cons]
      tauto

theorem jsSetOfList_mem (l : List String) (x : String) :
    x ∈ jsSetOfList l ↔ x ∈ l := by
  unfold jsSetOfList
  rw [jsSetOfList_aux]
  simp

theorem mapGet_append (l₁ l₂ : List Message) (k : String) :
    mapGet (l₁ ++ l₂) k = (mapGet l₁ k).or (mapGet l₂ k) := by
  simp [mapGet, List.find?_append]

theorem mapSet_fresh (l : List Message) (k : String) (v : Message)
    (h : ∀ m ∈ l, m.id ≠ k) : mapSet l k v = l ++ [v] := by
  unfold mapSet
  have hfalse : (l.any (fun m => m.id = k)) = false := by
    rw [List.any_eq_false]
    intro m hm
    simpa using h m hm
  simp [hfalse]

-- ─── C10: editMessage on an unknown id ───────────────────────────────────

/-- C10. For every session and every id that occurs neither in the
raw-message collection nor in `messageOrder`, `editMessage(id, newMsg)`
leaves `messageOrder` and `getMessages()` unchanged (it cannot throw: it
is a total operation), even though `newMsg` is stored under that id and
retrievable by `getMessageById`. -/
theorem editMessage_orphan_id (s : Session) (now : Nat) (id : String)
    (newMsg : Message)
    (hmsg : ∀ m ∈ s.messages, m.id ≠ id)
    (horder : id ∉ s.messageOrder) :
    (editMessage now id newMsg s).messageOrder = s.messageOrder ∧
    getMessages (editMessage now id newMsg s) = getMessages s ∧
    getMessageById (editMessage now id newMsg s) id
      = some { newMsg with id := id } := by
  have hset : mapSet s.messages id { newMsg with id := id }
      = s.messages ++ [{ newMsg with id := id }] := mapSet_fresh _ _ _ hmsg
  refine ⟨rfl, ?_, ?_⟩
  · unfold getMessages editMessage bumpModified
    simp only [hset]
    apply List.filterMap_congr
    intro oid hoid
    rw [mapGet_append]
    have hne : oid ≠ id := fun h => horder (h ▸ hoid)
    have : mapGet [{ newMsg with id := id }] oid = none := by
      simp [mapGet, List.find?, hne.symm]
    rw [this, Option.or_none]
  · unfold getMessageById editMessage bumpModified
    simp only [hset]
    rw [mapGet_append]
    have h1 : mapGet s.messages id = none := by
      unfold mapGet
      rw [List.find?_eq_none]
      intro m hm
      simpa using hmsg m hm
    have h2 : mapGet [{ newMsg with id := id }] id
        = some { newMsg with id := id } := by
      simp [mapGet, List.find?]
    rw [h1, h2, Option.none_or]

/-- Witness for C10 at a concrete session. -/
theorem editMessage_orphan_id_witness :
    (editMessage 7 "ghost" (mkMsg "x" Role.user "new" 1 3)
        { emptySession with
          messages := [mkMsg "msg-1" Role.user "hi" 1 1]
          messageCounter := 1
          messageOrder := ["msg-1"] }).messageOrder
      = ["msg-1"] := by
  have h := editMessage_orphan_id
    { emptySession with
      messages := [mkMsg "msg-1" Role.user "hi" 1 1]
      messageCounter := 1
      messageOrder := ["msg-1"] }
    7 "ghost" (mkMsg "x" Role.user "new" 1 3)
    (by intro m hm; simp only [List.mem_singleton] at hm; subst hm; decide)
    (by decide)
  exact h.1

-- ─── C2: serialization round-trip ────────────────────────────────────────

theorem foldl_mapSet_fresh (f : Message → Message) (hf : ∀ m, (f m).id = m.id)
    (l acc : List Message)
    (hfresh : ∀ m ∈ l, ∀ a ∈ acc, a.id ≠ m.id)
    (hnodup : (msgIds l).Nodup) :
    l.foldl (fun acc m => mapSet acc m.id (f m)) acc = acc ++ l.map f := by
  induction l generalizing acc with
  | nil => simp
  | cons m rest ih =>
    simp only [List.foldl_cons, List.map_cons]
    have hstep : mapSet acc m.id (f m) = acc ++ [f m] :=
      mapSet_fresh _ _ _ (fun a ha => hfresh m (List.mem_cons_self m rest) a ha)
    rw [hstep]
    have hnodup' : (msgIds rest).Nodup := by
      simpa [msgIds] using hnodup.of_cons
    have hhead : m.id ∉ msgIds rest := by
      have := hnodup
      simp only [msgIds, List.map_cons, List.nodup_cons] at this
      simpa [msgIds] using this.1
    rw [ih (acc ++ [f m])
      (by
        intro m' hm' a ha
        rcases List.mem_append.1 ha with h | h
        · exact hfresh m' (List.mem_cons_of_mem _ hm') a h
        · rcases List.mem_singleton.1 h with rfl
          rw [hf m]
          intro hcontra
          exact hhead (hcontra ▸ List.mem_map_of_mem (fun x => x.id) hm'))
      hnodup']
    simp

theorem forall₂_msgEquiv_norm (l : List Message) :
    List.Forall₂ msgEquiv (l.map normMsg) l := by
  induction l with
  | nil => exact List.Forall₂.nil
  | cons m rest ih =>
    refine List.Forall₂.cons ?_ ih
    refine ⟨rfl, rfl, rfl, rfl, rfl, ?_⟩
    intro x
    simp only [normMsg, deserializeSet]
    exact jsSetOfList_mem _ x

/-- C2. `fromJSON (toJSON S)` — applied to an arbitrary target session —
restores identical `messageOrder`, identical message and summary content
(`summaryOf` compared as sets of members), and identical scalar metadata
(id, timestamps, name, reserve ratio, window limit, sequential-id flag). -/
theorem fromJSON_toJSON_roundtrip (S T : Session)
    (hm : (msgIds S.messages).Nodup) (hs : (msgIds S.summaries).Nodup) :
    (fromJSON T (toJSON S)).messageOrder = S.messageOrder ∧
    List.Forall₂ msgEquiv (fromJSON T (toJSON S)).messages S.messages ∧
    List.Forall₂ msgEquiv (fromJSON T (toJSON S)).summaries S.summaries ∧
    (fromJSON T (toJSON S)).id = S.id ∧
    (fromJSON T (toJSON S)).createdAt = S.createdAt ∧
    (fromJSON T (toJSON S)).lastModifiedAt = S.lastModifiedAt ∧
    (fromJSON T (toJSON S)).sessionName = S.sessionName ∧
    (fromJSON T (toJSON S)).reserveRatio = S.reserveRatio ∧
    (fromJSON T (toJSON S)).windowTokenLimit = S.windowTokenLimit ∧
    (fromJSON T (toJSON S)).useSequentialIds = S.useSequentialIds := by
  have hmsgs : (fromJSON T (toJSON S)).messages = S.messages.map normMsg := by
    show ((toJSON S).messages).foldl
        (fun acc m => mapSet acc m.id { m with summaryOf := deserializeSet m.summaryOf }) []
      = S.messages.map normMsg
    have hj : (toJSON S).messages = S.messages := by
      show S.messages.map (fun m => { m with summaryOf := m.summaryOf }) = S.messages
      simp
    rw [hj]
    have := foldl_mapSet_fresh normMsg (fun m => rfl) S.messages []
      (by intro m hm a ha; exact absurd ha (List.not_mem_nil a)) hm
    simpa [normMsg] using this
  have hsums : (fromJSON T (toJSON S)).summaries = S.summaries.map normMsg := by
    show ((toJSON S).summaries).foldl
        (fun acc m => mapSet acc m.id { m with summaryOf := deserializeSet m.summaryOf }) []
      = S.summaries.map normMsg
    have hj : (toJSON S).summaries = S.summaries := by
      show S.summaries.map (fun m => { m with summaryOf := m.summaryOf }) = S.summaries
      simp
    rw [hj]
    have := foldl_mapSet_fresh normMsg (fun m => rfl) S.summaries []
      (by intro m hm a ha; exact absurd ha (List.not_mem_nil a)) hs
    simpa [normMsg] using this
  refine ⟨rfl, ?_, ?_, rfl, rfl, rfl, rfl, rfl, rfl, rfl⟩
  · rw [hmsgs]; exact forall₂_msgEquiv_norm S.messages
  · rw [hsums]; exact forall₂_msgEquiv_norm S.summaries

/-- Witness for C2 at a concrete session containing a raw message and a
summary covering it. -/
theorem fromJSON_toJSON_roundtrip_witness :
    (fromJSON emptySession
        (toJSON
          { emptySession with
            messages := [mkMsg "msg-1" Role.user "hi" 2 1]
            summaries := [mkMsg "msg-2" Role.summary "sum" 1 2 (some ["msg-1"])]
            messageCounter := 2
            messageOrder := ["msg-1", "msg-2"] })).messageOrder
      = ["msg-1", "msg-2"] := by
  have h := fromJSON_toJSON_roundtrip
    { emptySession with
      messages := [mkMsg "msg-1" Role.user "hi" 2 1]
      summaries := [mkMsg "msg-2" Role.summary "sum" 1 2 (some ["msg-1"])]
      messageCounter := 2
      messageOrder := ["msg-1", "msg-2"] }
    emptySession (by decide) (by decide)
  exact h.1

-- ─── C5: addSummary ordering placement ───────────────────────────────────

theorem jsIndexOf_of_not_mem (l : List String) (x : String) (h : x ∉ l) :
    jsIndexOf l x = -1 := by
  unfold jsIndexOf
  have : l.findIdx? (fun y => y = x) = none := by
    rw [List.findIdx?_eq_none_iff]
    intro y hy
    simp only [decide_eq_false_iff_not]
    rintro rfl
    exact h hy
  rw [this]

theorem foldl_max_le (L : List Int) (c : Int) (h : ∀ x ∈ L, x ≤ c) :
    L.foldl max c = c := by
  induction L with
  | nil => rfl
  | cons x xs ih =>
    simp only [List.foldl_cons]
    rw [max_eq_left (h x (List.mem_cons_self x xs))]
    exact ih (fun y hy => h y (List.mem_cons_of_mem _ hy))

theorem generateMessageId_state (fresh : String) (s : Session) :
    ∃ c, (generateMessageId fresh s).2 = { s with messageCounter := c } := by
  unfold generateMessageId
  by_cases h : s.useSequentialIds = true
  · rw [if_pos h]; exact ⟨s.messageCounter + 1, rfl⟩
  · rw [if_neg h]; exact ⟨s.messageCounter, rfl⟩

theorem addSummary_messageOrder_some (fresh : String) (now : Nat)
    (sum : Message) (s : Session) (l : List String)
    (hgate : ¬(s.windowTokenLimit > 0 ∧ sum.tokens > s.windowTokenLimit))
    (hso : sum.summaryOf = some l) :
    (addSummary fresh now sum s).messageOrder =
      if (jsSetOfList l).length > 0 then
        if 0 ≤ ((jsSetOfList l).map (jsIndexOf s.messageOrder)).foldl max (-1) then
          insertAt
            (((jsSetOfList l).map (jsIndexOf s.messageOrder)).foldl max (-1) + 1).toNat
            (generateMessageId fresh s).1
            (removeFirst s.messageOrder (generateMessageId fresh s).1)
        else removeFirst s.messageOrder (generateMessageId fresh s).1
            ++ [(generateMessageId fresh s).1]
      else removeFirst s.messageOrder (generateMessageId fresh s).1
          ++ [(generateMessageId fresh s).1] := by
  obtain ⟨cnt, hsnd⟩ := generateMessageId_state fresh s
  unfold addSummary addSummaryCore
  rw [if_neg hgate]
  rcases hgen : generateMessageId fresh s with ⟨nid, s₁⟩
  rw [hgen] at hsnd
  subst hsnd
  simp only [hso, Option.map_some', bumpModified]

/-- C5. `addSummary(s)` with `s.summaryOf = {a,b,c}` (not rejected by the
oversized-summary gate; the generated id does not already occur in the
order): when `a,b,c` sit at positions `pa < pb < pc` of `messageOrder`,
the summary's id is inserted immediately after position `pc`; when none
of the covered ids occurs in `messageOrder`, the summary's id is appended
at the end. -/
theorem addSummary_placement (s : Session) (fresh : String) (now : Nat)
    (sum : Message) (a b c : String)
    (hso : sum.summaryOf = some [a, b, c])
    (hgate : s.windowTokenLimit = 0 ∨ sum.tokens ≤ s.windowTokenLimit)
    (hfresh : (generateMessageId fresh s).1 ∉ s.messageOrder) :
    (∀ pa pb pc : Nat,
      jsIndexOf s.messageOrder a = (pa : Int) →
      jsIndexOf s.messageOrder b = (pb : Int) →
      jsIndexOf s.messageOrder c = (pc : Int) →
      pa < pb → pb < pc →
      (addSummary fresh now sum s).messageOrder
        = insertAt (pc + 1) (generateMessageId fresh s).1 s.messageOrder) ∧
    (a ∉ s.messageOrder → b ∉ s.messageOrder → c ∉ s.messageOrder →
      (addSummary fresh now sum s).messageOrder
        = s.messageOrder ++ [(generateMessageId fresh s).1]) := by
  have hgate' : ¬(s.windowTokenLimit > 0 ∧ sum.tokens > s.windowTokenLimit) := by
    rcases hgate with h | h
    · intro hc; rw [h] at hc; exact absurd hc.1 (by omega)
    · intro hc; exact absurd hc.2 (by omega)
  have horder := addSummary_messageOrder_some fresh now sum s [a, b, c] hgate' hso
  have herase : removeFirst s.messageOrder (generateMessageId fresh s).1
      = s.messageOrder := List.erase_of_not_mem hfresh
  constructor
  · intro pa pb pc hpa hpb hpc hab hbc
    have hne_ba : ¬ b = a := by
      rintro rfl
      rw [hpa] at hpb
      have : pa = pb := by exact_mod_cast hpb
      omega
    have hne_ca : ¬ c = a := by
      rintro rfl
      rw [hpa] at hpc
      have : pa = pc := by exact_mod_cast hpc
      omega
    have hne_cb : ¬ c = b := by
      rintro rfl
      rw [hpb] at hpc
      have : pb = pc := by exact_mod_cast hpc
      omega
    have hset : jsSetOfList [a, b, c] = [a, b, c] := by
      simp [jsSetOfList, List.foldl, hne_ba, hne_ca, hne_cb]
    rw [hset] at horder
    simp only [List.map_cons, List.map_nil, List.foldl_cons, List.foldl_nil,
      hpa, hpb, hpc, List.length_cons, List.length_nil] at horder
    have hmax : max (max (max (-1 : Int) (pa : Int)) (pb : Int)) (pc : Int)
        = (pc : Int) := by
      have h1 : max (-1 : Int) (pa : Int) = (pa : Int) := max_eq_right (by omega)
      rw [h1]
      have h2 : max (pa : Int) (pb : Int) = (pb : Int) :=
        max_eq_right (by exact_mod_cast Nat.le_of_lt hab)
      rw [h2]
      exact max_eq_right (by exact_mod_cast Nat.le_of_lt hbc)
    rw [hmax] at horder
    rw [if_pos (by omega : (0:Nat) + 1 + 1 + 1 > 0), if_pos (by omega : (0:Int) ≤ (pc : Int))]
      at horder
    have htn : ((pc : Int) + 1).toNat = pc + 1 := by omega
    rw [htn, herase] at horder
    exact horder
  · intro ha hb hc
    have hids : ∀ x ∈ jsSetOfList [a, b, c], jsIndexOf s.messageOrder x = -1 := by
      intro x hx
      rw [jsSetOfList_mem] at hx
      rcases List.mem_cons.1 hx with rfl | hx
      · exact jsIndexOf_of_not_mem _ _ ha
      rcases List.mem_cons.1 hx with rfl | hx
      · exact jsIndexOf_of_not_mem _ _ hb
      rcases List.mem_singleton.1 hx with rfl
      exact jsIndexOf_of_not_mem _ _ hc
    have hlen : (jsSetOfList [a, b, c]).length > 0 := by
      have : a ∈ jsSetOfList [a, b, c] := by
        rw [jsSetOfList_mem]; exact List.mem_cons_self _ _
      exact List.length_pos.2 (List.ne_nil_of_mem this)
    have hfold : ((jsSetOfList [a, b, c]).map (jsIndexOf s.messageOrder)).foldl max (-1)
        = -1 := by
      apply foldl_max_le
      intro x hx
      rcases List.mem_map.1 hx with ⟨y, hy, rfl⟩
      rw [hids y hy]
    rw [if_pos hlen, hfold, if_neg (by omega : ¬ (0:Int) ≤ -1), herase] at horder
    exact horder

/-- Witness for C5: three covered messages at positions 0 < 1 < 2, summary
id `msg-4` spliced in right after position 2. -/
theorem addSummary_placement_witness :
    (addSummary "u" 9
        (mkMsg "" Role.summary "S" 1 5 (some ["msg-1", "msg-2", "msg-3"]))
        { emptySession with
          messages := [mkMsg "msg-1" Role.user "A" 1 1,
            mkMsg "msg-2" Role.user "B" 1 2, mkMsg "msg-3" Role.user "C" 1 3]
          messageCounter := 3
          messageOrder := ["msg-1", "msg-2", "msg-3"] }).messageOrder
      = ["msg-1", "msg-2", "msg-3", "msg-4"] := by
  have h := (addSummary_placement
    { emptySession with
      messages := [mkMsg "msg-1" Role.user "A" 1 1,
        mkMsg "msg-2" Role.user "B" 1 2, mkMsg "msg-3" Role.user "C" 1 3]
      messageCounter := 3
      messageOrder := ["msg-1", "msg-2", "msg-3"] }
    "u" 9 (mkMsg "" Role.summary "S" 1 5 (some ["msg-1", "msg-2", "msg-3"]))
    "msg-1" "msg-2" "msg-3" rfl (Or.inl rfl) (by decide)).1
    0 1 2 (by decide) (by decide) (by decide) (by decide) (by decide)
  rw [h]
  decide

-- ─── C1: the window selector and an oversized trailing message ───────────

theorem whileShrink_spec (limit : Nat) (msgs : List Message) (k : Nat)
    (hk : k ≤ msgs.length) :
    ∀ (fuel l tc : Nat), l ≤ k → k - l ≤ fuel →
      tc = (((msgs.take k).drop l).map (fun m => m.tokens)).sum →
      (whileShrink limit msgs fuel l tc).1 ≤ k ∧
      (whileShrink limit msgs fuel l tc).2
        = (((msgs.take k).drop (whileShrink limit msgs fuel l tc).1).map
            (fun m => m.tokens)).sum ∧
      (whileShrink limit msgs fuel l tc).2 ≤ limit := by
  intro fuel
  induction fuel with
  | zero =>
    intro l tc hl hfuel htc
    have hlk : l = k := by omega
    subst hlk
    have hdrop : (msgs.take l).drop l = [] := by
      rw [List.drop_eq_nil_iff]
      simp [List.length_take]
    rw [hdrop] at htc
    simp only [List.map_nil, List.sum_nil] at htc
    subst htc
    exact ⟨hl, by simp [whileShrink, hdrop], by simp [whileShrink]⟩
  | succ fuel ih =>
    intro l tc hl hfuel htc
    by_cases hguard : limit < tc ∧ l < msgs.length
    · have hlk : l < k := by
        rcases Nat.lt_or_ge l k with h | h
        · exact h
        · exfalso
          have hlk : l = k := by omega
          subst hlk
          have hdrop : (msgs.take l).drop l = [] := by
            rw [List.drop_eq_nil_iff]
            simp [List.length_take]
          rw [hdrop] at htc
          simp at htc
          omega
      have hstep : whileShrink limit msgs (fuel + 1) l tc
          = whileShrink limit msgs fuel (l + 1)
              (tc - (msgs.get ⟨l, hguard.2⟩).tokens) := by
        rw [whileShrink, dif_pos hguard]
      have hltake : l < (msgs.take k).length := by
        simp [List.length_take]
        omega
      have hcons : (msgs.take k).drop l
          = (msgs.take k).get ⟨l, hltake⟩ :: (msgs.take k).drop (l + 1) :=
        List.drop_eq_getElem_cons hltake
      have hgeteq : (msgs.take k).get ⟨l, hltake⟩ = msgs.get ⟨l, hguard.2⟩ := by
        simp [List.getElem_take]
      have hsum2 : (((msgs.take k).drop l).map (fun m => m.tokens)).sum
          = (msgs.get ⟨l, hguard.2⟩).tokens
            + (((msgs.take k).drop (l + 1)).map (fun m => m.tokens)).sum := by
        conv_lhs => rw [hcons]
        rw [List.map_cons, List.sum_cons, hgeteq]
      have htc' : tc - (msgs.get ⟨l, hguard.2⟩).tokens
          = (((msgs.take k).drop (l + 1)).map (fun m => m.tokens)).sum := by
        omega
      rw [hstep]
      exact ih (l + 1) _ (by omega) (by omega) htc'
    · have hstop : whileShrink limit msgs (fuel + 1) l tc = (l, tc) := by
        rw [whileShrink, dif_neg hguard]
      rw [hstop]
      refine ⟨hl, htc, ?_⟩
      by_cases hle : tc ≤ limit
      · exact hle
      · exfalso
        have hlen : msgs.length ≤ l := by
          rcases Nat.lt_or_ge l msgs.length with h | h
          · exact absurd ⟨by omega, h⟩ hguard
          · exact h
        have hlk : l = k := by omega
        subst hlk
        have hdrop : (msgs.take l).drop l = [] := by
          rw [List.drop_eq_nil_iff]
          simp [List.length_take]
        rw [hdrop] at htc
        simp at htc
        omega

theorem windowFold_inv (limit : Nat) (msgs : List Message) :
    ∀ (rest : List Message) (k : Nat) (st : Nat × Nat),
      msgs.drop k = rest → k ≤ msgs.length →
      st.1 ≤ k →
      st.2 = (((msgs.take k).drop st.1).map (fun m => m.tokens)).sum →
      st.2 ≤ limit →
      (rest.foldl
          (fun st m =>
            whileShrink limit msgs (msgs.length - st.1) st.1 (st.2 + m.tokens))
          st).1 ≤ msgs.length ∧
      (rest.foldl
          (fun st m =>
            whileShrink limit msgs (msgs.length - st.1) st.1 (st.2 + m.tokens))
          st).2
        = ((msgs.drop
            (rest.foldl
              (fun st m =>
                whileShrink limit msgs (msgs.length - st.1) st.1 (st.2 + m.tokens))
              st).1).map (fun m => m.tokens)).sum ∧
      (rest.foldl
          (fun st m =>
            whileShrink limit msgs (msgs.length - st.1) st.1 (st.2 + m.tokens))
          st).2 ≤ limit := by
  intro rest
  induction rest with
  | nil =>
    intro k st hdropk hk hl htc hle
    have hkn : msgs.length ≤ k := by
      rw [List.drop_eq_nil_iff] at hdropk
      exact hdropk
    have hkeq : k = msgs.length := by omega
    subst hkeq
    rw [List.take_length] at htc
    simp only [List.foldl_nil]
    exact ⟨by omega, htc, hle⟩
  | cons m rest' ih =>
    intro k st hdropk hk hl htc hle
    have hklt : k < msgs.length := by
      rcases Nat.lt_or_ge k msgs.length with h | h
      · exact h
      · exfalso
        have : msgs.drop k = [] := by
          rw [List.drop_eq_nil_iff]; exact h
        rw [this] at hdropk
        exact List.noConfusion hdropk
    have hcons : msgs.drop k = msgs.get ⟨k, hklt⟩ :: msgs.drop (k + 1) :=
      List.drop_eq_getElem_cons hklt
    rw [hcons] at hdropk
    have hm : m = msgs.get ⟨k, hklt⟩ := (List.cons.injEq _ _ _ _ ▸ hdropk).1.symm
    have hrest : msgs.drop (k + 1) = rest' := (List.cons.injEq _ _ _ _ ▸ hdropk).2
    simp only [List.foldl_cons]
    have htake : msgs.take (k + 1) = msgs.take k ++ [msgs.get ⟨k, hklt⟩] := by
      rw [List.take_succ]
      simp [List.getElem?_eq_getElem hklt]
    have htc1 : st.2 + m.tokens
        = (((msgs.take (k + 1)).drop st.1).map (fun m => m.tokens)).sum := by
      rw [htake, List.drop_append_of_le_length (by simp [List.length_take]; omega)]
      simp [htc, hm]
    have hws := whileShrink_spec limit msgs (k + 1) (by omega)
      (msgs.length - st.1) st.1 (st.2 + m.tokens) (by omega) (by omega) htc1
    exact ih (k + 1)
      (whileShrink limit msgs (msgs.length - st.1) st.1 (st.2 + m.tokens))
      hrest (by omega) hws.1 hws.2.1 hws.2.2

theorem windowScan_spec (limit : Nat) (msgs : List Message) :
    (windowScan limit msgs).1 ≤ msgs.length ∧
    (windowScan limit msgs).2
      = ((msgs.drop (windowScan limit msgs).1).map (fun m => m.tokens)).sum ∧
    (windowScan limit msgs).2 ≤ limit := by
  have := windowFold_inv limit msgs msgs 0 (0, 0) (by simp) (by omega)
    (by omega) (by simp) (by omega)
  exact this

/-- Counterexample to C1: a single trailing message costing 10 tokens with
`tokenLimit = 5` — its cost alone exceeds the limit, yet `getMessageWindow`
does *not* include it in `fitting` (the shrinking `while` walks past it,
leaving `fitting` empty). -/
theorem oversized_tail_excluded_cex :
    (mkMsg "m" Role.user "x" 10 0).tokens > 5 ∧
    mkMsg "m" Role.user "x" 10 0
      ∉ (getMessageWindow 5 [mkMsg "m" Role.user "x" 10 0]).2 := by
  decide

/-- C1 (amended): whenever the *last* message's token cost alone exceeds
`tokenLimit`, `getMessageWindow` excludes it — indeed the whole `fitting`
slice ends up empty, because every trailing window containing the last
message exceeds the limit and the shrinking loop walks past the end. -/
theorem oversized_tail_excluded (limit : Nat) (msgs : List Message)
    (hne : msgs ≠ []) (hbig : limit < (msgs.getLast hne).tokens) :
    (getMessageWindow limit msgs).2 = [] := by
  obtain ⟨hlen, hsum, hle⟩ := windowScan_spec limit msgs
  have hfit : (getMessageWindow limit msgs).2 = msgs.drop (windowScan limit msgs).1 :=
    rfl
  rw [hfit]
  rw [List.drop_eq_nil_iff]
  by_contra hlt
  push_neg at hlt
  have hdrop_ne : msgs.drop (windowScan limit msgs).1 ≠ [] := by
    rw [Ne, List.drop_eq_nil_iff]
    omega
  have hsplit : msgs = msgs.take (windowScan limit msgs).1
      ++ msgs.drop (windowScan limit msgs).1 := (List.take_append_drop _ _).symm
  have hlast_mem : msgs.getLast hne ∈ msgs.drop (windowScan limit msgs).1 := by
    have hq : msgs.getLast? = (msgs.drop (windowScan limit msgs).1).getLast? := by
      conv_lhs => rw [hsplit]
      exact List.getLast?_append_of_ne_nil _ hdrop_ne
    rw [List.getLast?_eq_getLast msgs hne,
      List.getLast?_eq_getLast _ hdrop_ne] at hq
    rw [Option.some_inj.1 hq]
    exact List.getLast_mem hdrop_ne
  have htok : (msgs.getLast hne).tokens
      ≤ ((msgs.drop (windowScan limit msgs).1).map (fun m => m.tokens)).sum := by
    apply List.single_le_sum (by intro x hx; omega)
    exact List.mem_map_of_mem (fun m => m.tokens) hlast_mem
  omega

/-- Witness for the amended C1 at a two-message list whose tail costs 10
against a limit of 5. -/
theorem oversized_tail_excluded_witness :
    (getMessageWindow 5
        [mkMsg "a" Role.user "x" 1 0, mkMsg "m" Role.user "y" 10 0]).2 = [] := by
  have h := oversized_tail_excluded 5
    [mkMsg "a" Role.user "x" 1 0, mkMsg "m" Role.user "y" 10 0]
    (by decide) (by decide)
  exact h

-- ─── C7: compaction correctness ──────────────────────────────────────────

theorem specCovered_cons (s : Session) (id : String) (rest : List String)
    (x : String) :
    specCovered s (id :: rest) x
      = ((match jsLookup s id with
          | some m => isSummaryMessage m && decide (x ∈ m.summaryOf.getD [])
          | none => false) || specCovered s rest x) := by
  simp [specCovered, List.any_cons]

theorem compactFold_spec (s : Session) (order : List String) :
    ((order.foldr
        (fun id acc =>
          match jsLookup s id with
          | none => acc
          | some msg =>
            if isSummaryMessage msg then
              (acc.1 ++ [msg], acc.2 ++ msg.summaryOf.getD [])
            else if id ∈ acc.2 then acc
            else (acc.1 ++ [msg], acc.2)) ([], [])).1).reverse
      = specCompact s order ∧
    ∀ x, (x ∈ (order.foldr
        (fun id acc =>
          match jsLookup s id with
          | none => acc
          | some msg =>
            if isSummaryMessage msg then
              (acc.1 ++ [msg], acc.2 ++ msg.summaryOf.getD [])
            else if id ∈ acc.2 then acc
            else (acc.1 ++ [msg], acc.2)) ([], [])).2)
      ↔ specCovered s order x = true := by
  induction order with
  | nil =>
    constructor
    · rfl
    · intro x
      simp [specCovered]
  | cons id rest ih =>
    obtain ⟨ih1, ih2⟩ := ih
    simp only [List.foldr_cons]
    rcases hlook : jsLookup s id with _ | m
    · constructor
      · rw [ih1]
        simp [specCompact, hlook]
      · intro x
        rw [specCovered_cons, hlook]
        simpa using ih2 x
    · by_cases hsumm : isSummaryMessage m = true
      · constructor
        · simp only [hsumm, if_true, List.reverse_append, List.reverse_cons,
            List.reverse_nil, List.nil_append, List.singleton_append]
          rw [ih1]
          simp [specCompact, hlook, hsumm]
        · intro x
          rw [specCovered_cons, hlook]
          simp only [hsumm, eq_self_iff_true, if_true, Bool.true_and,
            List.mem_append, Bool.or_eq_true, decide_eq_true_eq, ih2 x]
          tauto
      · have hsummF : isSummaryMessage m = false := by
          simpa using hsumm
        by_cases hcov : id ∈ (List.foldr
            (fun id acc =>
              match jsLookup s id with
              | none => acc
              | some msg =>
                if isSummaryMessage msg then
                  (acc.1 ++ [msg], acc.2 ++ msg.summaryOf.getD [])
                else if id ∈ acc.2 then acc
                else (acc.1 ++ [msg], acc.2)) ([], []) rest).2
        · constructor
          · simp only [hsummF, Bool.false_eq_true, if_false, if_pos hcov]
            rw [ih1]
            have hcov' : specCovered s rest id = true := (ih2 id).1 hcov
            simp [specCompact, hlook, hsummF, hcov']
          · intro x
            simp only [hsummF, Bool.false_eq_true, if_false, if_pos hcov]
            rw [specCovered_cons, hlook]
            simp only [hsummF, Bool.false_and, Bool.false_or]
            exact ih2 x
        · constructor
          · simp only [hsummF, Bool.false_eq_true, if_false, if_neg hcov,
              List.reverse_append, List.reverse_cons, List.reverse_nil,
              List.nil_append, List.singleton_append]
            rw [ih1]
            have hcov' : specCovered s rest id = false := by
              rcases h : specCovered s rest id
              · rfl
              · exact absurd ((ih2 id).2 h) hcov
            simp [specCompact, hlook, hsummF, hcov']
          · intro x
            simp only [hsummF, Bool.false_eq_true, if_false, if_neg hcov]
            rw [specCovered_cons, hlook]
            simp only [hsummF, Bool.false_and, Bool.false_or]
            exact ih2 x

/-- C7. `getCompactedMessages` returns the `messageOrder` sequence with
every summary kept in place and every raw message covered by a later
summary (scanning from the end, later summaries take precedence) dropped;
on the specification's concrete example — raw `A,B,C`, a summary covering
`{A,B,C}` placed after `C`, then raw `D` — the result is exactly
`[summary, D]`. -/
theorem getCompactedMessages_correct :
    (∀ s : Session, getCompactedMessages s = specCompact s s.messageOrder) ∧
    getCompactedMessages compactExample
      = [mkMsg "msg-4" Role.summary "Summ ABC" 2 4
          (some ["msg-1", "msg-2", "msg-3"]),
         mkMsg "msg-5" Role.user "D" 1 5] := by
  constructor
  · intro s
    have h : getCompactedMessages s
        = ((s.messageOrder.foldr
            (fun id acc =>
              match jsLookup s id with
              | none => acc
              | some msg =>
                if isSummaryMessage msg then
                  (acc.1 ++ [msg], acc.2 ++ msg.summaryOf.getD [])
                else if id ∈ acc.2 then acc
                else (acc.1 ++ [msg], acc.2)) ([], [])).1).reverse := by
      show (List.foldl
          (fun acc id =>
            match jsLookup s id with
            | none => acc
            | some msg =>
              if isSummaryMessage msg then
                (acc.1 ++ [msg], acc.2 ++ msg.summaryOf.getD [])
              else if id ∈ acc.2 then acc
              else (acc.1 ++ [msg], acc.2)) ([], []) s.messageOrder.reverse).1.reverse
        = _
      rw [List.foldl_reverse]
    rw [h]
    exact (compactFold_spec s s.messageOrder).1
  · decide

-- ─── C6: deleteMessage cascade ───────────────────────────────────────────

theorem mapGet_skip_pre (pre rest : List Message) (σ : Message)
    (hpre : σ.id ∉ msgIds pre) :
    mapGet (pre ++ σ :: rest) σ.id = some σ := by
  unfold mapGet
  rw [List.find?_append]
  have hnone : pre.find? (fun m => m.id = σ.id) = none := by
    rw [List.find?_eq_none]
    intro m hm
    simp only [decide_eq_true_eq]
    intro hcontra
    exact hpre (hcontra ▸ List.mem_map_of_mem (fun x => x.id) hm)
  rw [hnone, Option.none_or]
  simp [List.find?]

theorem deleteSummary_found (now : Nat) (id : String) (s : Session)
    (h : mapHas s.summaries id = true) :
    (deleteSummary now id s).2
      = bumpModified now
          { s with
            summaries := mapDelete s.summaries id
            messageOrder := removeFirst s.messageOrder id } := by
  unfold deleteSummary
  simp [h]

theorem cleanupSummaries_spec (now : Nat) (delId : String)
    (post : List Message) :
    ∀ (pre : List Message) (s : Session),
      s.summaries = pre ++ post →
      (msgIds (pre ++ post)).Nodup →
      (cleanupSummaries now delId (msgIds post) s).summaries
        = pre ++ (post.map (stripId delId)).filter
            (fun σ => ¬ σ.summaryOf = some []) ∧
      (cleanupSummaries now delId (msgIds post) s).messages = s.messages ∧
      (cleanupSummaries now delId (msgIds post) s).messageOrder
        = (post.filter (fun σ =>
            σ.summaryOf.map (fun l => l.erase delId) = some [])).foldl
            (fun ord σ => removeFirst ord σ.id) s.messageOrder := by
  induction post with
  | nil =>
    intro pre s hsum hnodup
    refine ⟨?_, rfl, rfl⟩
    simp [cleanupSummaries, msgIds, hsum]
  | cons σ rest ih =>
    intro pre s hsum hnodup
    have hids : msgIds (pre ++ σ :: rest)
        = msgIds pre ++ σ.id :: msgIds rest := by
      simp [msgIds]
    have hid_pre : σ.id ∉ msgIds pre := by
      rw [hids] at hnodup
      have := List.disjoint_of_nodup_append hnodup
      intro hmem
      exact this hmem (List.mem_cons_self _ _)
    have hid_rest : σ.id ∉ msgIds rest := by
      rw [hids] at hnodup
      have h2 := (List.nodup_append.mp hnodup).2.1
      exact (List.nodup_cons.mp h2).1
    have hfind : mapGet s.summaries σ.id = some σ := by
      rw [hsum]; exact mapGet_skip_pre pre rest σ hid_pre
    have hmap : s.summaries.map (fun m =>
        if m.id = σ.id then
          { σ with summaryOf := σ.summaryOf.map (fun l => l.erase delId) }
        else m) = pre ++ stripId delId σ :: rest := by
      rw [hsum, List.map_append, List.map_cons]
      have h1 : pre.map (fun m =>
          if m.id = σ.id then
            { σ with summaryOf := σ.summaryOf.map (fun l => l.erase delId) }
          else m) = pre := by
        conv_rhs => rw [← List.map_id pre]
        apply List.map_congr_left
        intro m hm
        rw [if_neg]
        · rfl
        · intro hcontra
          exact hid_pre (hcontra ▸ List.mem_map_of_mem (fun x => x.id) hm)
      have h2 : rest.map (fun m =>
          if m.id = σ.id then
            { σ with summaryOf := σ.summaryOf.map (fun l => l.erase delId) }
          else m) = rest := by
        conv_rhs => rw [← List.map_id rest]
        apply List.map_congr_left
        intro m hm
        rw [if_neg]
        · rfl
        · intro hcontra
          exact hid_rest (hcontra ▸ List.mem_map_of_mem (fun x => x.id) hm)
      rw [h1, h2]
      simp [stripId]
    have hstep : cleanupSummaries now delId (msgIds (σ :: rest)) s
        = cleanupSummaries now delId (msgIds rest)
            (if σ.summaryOf.map (fun l => l.erase delId) = some [] then
              (deleteSummary now σ.id
                { s with summaries :=
                    s.summaries.map (fun m =>
                      if m.id = σ.id then
                        { σ with summaryOf :=
                            σ.summaryOf.map (fun l => l.erase delId) }
                      else m) }).2
            else
              { s with summaries :=
                  s.summaries.map (fun m =>
                    if m.id = σ.id then
                      { σ with summaryOf :=
                          σ.summaryOf.map (fun l => l.erase delId) }
                    else m) }) := by
      show cleanupSummaries now delId (σ.id :: msgIds rest) s = _
      rw [cleanupSummaries, hfind]
    rw [hstep]
    by_cases hso : σ.summaryOf.map (fun l => l.erase delId) = some []
    · rw [if_pos hso]
      have hhasX : mapHas (s.summaries.map (fun m =>
          if m.id = σ.id then
            { σ with summaryOf := σ.summaryOf.map (fun l => l.erase delId) }
          else m)) σ.id = true := by
        rw [hmap]
        unfold mapHas
        rw [List.any_eq_true]
        exact ⟨stripId delId σ, by simp, by simp [stripId]⟩
      rw [deleteSummary_found now σ.id
        { s with
          summaries :=
            s.summaries.map (fun m =>
              if m.id = σ.id then
                { σ with summaryOf := σ.summaryOf.map (fun l => l.erase delId) }
              else m) }
        hhasX]
      have herase : mapDelete (pre ++ stripId delId σ :: rest) σ.id
          = pre ++ rest := by
        unfold mapDelete
        rw [List.eraseP_append_right]
        · rw [List.eraseP_cons_of_pos (by simp [stripId])]
        · intro b hb
          simp only [decide_eq_true_eq]
          intro hcontra
          exact hid_pre (hcontra ▸ List.mem_map_of_mem (fun x => x.id) hb)
      dsimp only
      rw [hmap, herase]
      have hnodup' : (msgIds (pre ++ rest)).Nodup := by
        apply List.Nodup.sublist _ hnodup
        apply List.Sublist.map
        exact List.Sublist.append_left (List.Sublist.cons σ (List.Sublist.refl rest)) pre
      have hrec := ih pre
        (bumpModified now
          { s with
            summaries := pre ++ rest
            messageOrder := removeFirst s.messageOrder σ.id })
        (by simp [bumpModified]) (by simpa [bumpModified] using hnodup')
      refine ⟨?_, ?_, ?_⟩
      · rw [hrec.1]
        congr 1
        rw [List.map_cons, List.filter_cons]
        have hkeep : (decide ¬ (stripId delId σ).summaryOf = some []) = false := by
          simp [stripId, hso]
        rw [hkeep]
        simp
      · rw [hrec.2.1]
        rfl
      · rw [hrec.2.2]
        rw [List.filter_cons]
        have hdel : (decide
            (σ.summaryOf.map (fun l => l.erase delId) = some [])) = true := by
          simp [hso]
        rw [hdel]
        simp [bumpModified]
    · rw [if_neg hso]
      have hsum' : s.summaries.map (fun m =>
          if m.id = σ.id then
            { σ with summaryOf := σ.summaryOf.map (fun l => l.erase delId) }
          else m)
          = (pre ++ [stripId delId σ]) ++ rest := by
        rw [hmap]
        simp
      have hnodup'' : (msgIds ((pre ++ [stripId delId σ]) ++ rest)).Nodup := by
        have heq : msgIds ((pre ++ [stripId delId σ]) ++ rest)
            = msgIds (pre ++ σ :: rest) := by
          simp [msgIds, stripId]
        rw [heq]
        exact hnodup
      have hrec := ih (pre ++ [stripId delId σ])
        { s with
          summaries :=
            s.summaries.map (fun m =>
              if m.id = σ.id then
                { σ with summaryOf := σ.summaryOf.map (fun l => l.erase delId) }
              else m) }
        hsum' hnodup''
      refine ⟨?_, ?_, ?_⟩
      · rw [hrec.1]
        rw [List.map_cons, List.filter_cons]
        have hkeep : (decide ¬ (stripId delId σ).summaryOf = some []) = true := by
          simp [stripId, hso]
        rw [hkeep]
        simp
      · rw [hrec.2.1]
      · rw [hrec.2.2]
        rw [List.filter_cons]
        have hdel : (decide
            (σ.summaryOf.map (fun l => l.erase delId) = some [])) = false := by
          simp [hso]
        rw [hdel]
        rfl

theorem deleteMessage_found (now : Nat) (id : String) (s : Session)
    (hex : mapHas s.messages id = true) :
    deleteMessage now id s
      = (true, bumpModified now
          (cleanupSummaries now id (msgIds s.summaries)
            { s with
              messages := mapDelete s.messages id
              messageOrder := removeFirst s.messageOrder id })) := by
  unfold deleteMessage
  rw [if_pos hex]
  rfl

theorem deleteMessage_notfound (now : Nat) (id : String) (s : Session)
    (hex : mapHas s.messages id = false) :
    deleteMessage now id s = (false, bumpModified now s) := by
  unfold deleteMessage
  rw [if_neg (by simp [hex])]

theorem mapHas_mapDelete_self (l : List Message) (k : String)
    (h : (msgIds l).Nodup) : mapHas (mapDelete l k) k = false := by
  induction l with
  | nil => rfl
  | cons m rest ih =>
    have hnd := h
    simp only [msgIds, List.map_cons, List.nodup_cons] at hnd
    by_cases hid : m.id = k
    · unfold mapDelete
      rw [List.eraseP_cons_of_pos (by simp [hid])]
      unfold mapHas
      rw [List.any_eq_false]
      intro σ hσ
      simp only [decide_eq_true_eq]
      intro hcontra
      exact hnd.1 (by
        rw [hid, ← hcontra]
        exact List.mem_map_of_mem (fun x => x.id) hσ)
    · unfold mapDelete
      rw [List.eraseP_cons_of_neg (by simp [hid])]
      unfold mapHas
      rw [List.any_cons]
      have := ih (by simpa [msgIds] using hnd.2)
      unfold mapHas mapDelete at this
      simp [hid, this]

theorem not_mem_foldl_removeFirst (x : String) (L : List Message) :
    ∀ ord : List String, x ∉ ord →
      x ∉ L.foldl (fun o σ => removeFirst o σ.id) ord := by
  induction L with
  | nil => intro ord h; exact h
  | cons σ rest ih =>
    intro ord h
    simp only [List.foldl_cons]
    apply ih
    intro hmem
    exact h (List.erase_subset _ _ hmem)

theorem mapGet_of_mem_nodup (L : List Message) (σ : Message)
    (hmem : σ ∈ L) (hnd : (msgIds L).Nodup) : mapGet L σ.id = some σ := by
  induction L with
  | nil => exact absurd hmem (List.not_mem_nil σ)
  | cons m rest ih =>
    have hnd' := hnd
    simp only [msgIds, List.map_cons, List.nodup_cons] at hnd'
    rcases List.mem_cons.1 hmem with rfl | hmem'
    · unfold mapGet
      rw [List.find?_cons_of_pos _ (by simp)]
    · by_cases hid : m.id = σ.id
      · exfalso
        apply hnd'.1
        rw [hid]
        exact List.mem_map_of_mem (fun x => x.id) hmem'
      · unfold mapGet
        rw [List.find?_cons_of_neg _ (by simp [hid])]
        exact ih hmem' (by simpa [msgIds] using hnd'.2)

/-- C6. `deleteMessage(id)` on an existing raw message removes it from the
raw collection and from `messageOrder`, strips `id` from every remaining
summary's `summaryOf`, deletes every summary whose `summaryOf` becomes
empty (a summary whose sole covered message was `id` disappears; one
covering several messages survives with a strictly smaller set), returns
`true` iff the message existed, and leaves everything unchanged (except
the modification stamp) when the message does not exist. Hypotheses: the
map keys are duplicate-free and each `summaryOf` is a genuine set, as in
the JS runtime. -/
theorem deleteMessage_spec (s : Session) (now : Nat) (id : String)
    (hmsgids : (msgIds s.messages).Nodup)
    (hord : s.messageOrder.Nodup)
    (hsumids : (msgIds s.summaries).Nodup)
    (hsets : ∀ σ ∈ s.summaries, ∀ l, σ.summaryOf = some l → l.Nodup) :
    ((deleteMessage now id s).1 = true ↔ mapHas s.messages id = true) ∧
    (mapHas s.messages id = true →
      mapHas (deleteMessage now id s).2.messages id = false ∧
      id ∉ (deleteMessage now id s).2.messageOrder ∧
      (∀ σ ∈ (deleteMessage now id s).2.summaries,
        id ∉ σ.summaryOf.getD []) ∧
      (∀ σ ∈ s.summaries, σ.summaryOf.map (fun l => l.erase id) = some [] →
        mapHas (deleteMessage now id s).2.summaries σ.id = false) ∧
      (∀ σ ∈ s.summaries, ∀ l, σ.summaryOf = some l → l.erase id ≠ [] →
        mapGet (deleteMessage now id s).2.summaries σ.id
          = some { σ with summaryOf := some (l.erase id) } ∧
        (id ∈ l → (l.erase id).length < l.length))) ∧
    (mapHas s.messages id = false →
      (deleteMessage now id s).2.messages = s.messages ∧
      (deleteMessage now id s).2.summaries = s.summaries ∧
      (deleteMessage now id s).2.messageOrder = s.messageOrder) := by
  by_cases hex : mapHas s.messages id = true
  · have hred := deleteMessage_found now id s hex
    have hclean := cleanupSummaries_spec now id s.summaries []
      { s with
        messages := mapDelete s.messages id
        messageOrder := removeFirst s.messageOrder id }
      (by simp) (by simpa [msgIds] using hsumids)
    refine ⟨by rw [hred]; simp [hex], ?_, by intro h; rw [h] at hex; cases hex⟩
    intro _
    have hsummaries : (deleteMessage now id s).2.summaries
        = (s.summaries.map (stripId id)).filter
            (fun σ => ¬ σ.summaryOf = some []) := by
      rw [hred]
      show (cleanupSummaries now id (msgIds s.summaries) _).summaries = _
      rw [hclean.1]
      simp
    have hmessages : (deleteMessage now id s).2.messages
        = mapDelete s.messages id := by
      rw [hred]
      show (cleanupSummaries now id (msgIds s.summaries) _).messages = _
      rw [hclean.2.1]
    have horder : (deleteMessage now id s).2.messageOrder
        = (s.summaries.filter (fun σ =>
            σ.summaryOf.map (fun l => l.erase id) = some [])).foldl
            (fun ord σ => removeFirst ord σ.id)
            (removeFirst s.messageOrder id) := by
      rw [hred]
      show (cleanupSummaries now id (msgIds s.summaries) _).messageOrder = _
      rw [hclean.2.2]
    refine ⟨?_, ?_, ?_, ?_, ?_⟩
    · rw [hmessages]
      exact mapHas_mapDelete_self s.messages id hmsgids
    · rw [horder]
      apply not_mem_foldl_removeFirst
      exact hord.not_mem_erase
    · rw [hsummaries]
      intro σ' hσ'
      rcases List.mem_filter.1 hσ' with ⟨hmem, _⟩
      rcases List.mem_map.1 hmem with ⟨σ, hσ, rfl⟩
      rcases hso : σ.summaryOf with _ | l
      · simp [stripId, hso]
      · have hnd := hsets σ hσ l hso
        simp only [stripId, hso, Option.map_some', Option.getD_some]
        exact hnd.not_mem_erase
    · rw [hsummaries]
      intro σ hσ hempty
      unfold mapHas
      rw [List.any_eq_false]
      intro σ' hσ'
      rcases List.mem_filter.1 hσ' with ⟨hmem, hkeep⟩
      rcases List.mem_map.1 hmem with ⟨σ'', hσ'', rfl⟩
      simp only [decide_eq_true_eq]
      intro hcontra
      have hideq : σ''.id = σ.id := by simpa [stripId] using hcontra
      have : σ'' = σ :=
        List.inj_on_of_nodup_map hsumids hσ'' hσ hideq
      subst this
      rw [stripId, hempty] at hkeep
      simp at hkeep
    · rw [hsummaries]
      intro σ hσ l hso hne
      constructor
      · have hmemstrip : stripId id σ
            ∈ (s.summaries.map (stripId id)).filter
                (fun σ => ¬ σ.summaryOf = some []) := by
          rw [List.mem_filter]
          refine ⟨List.mem_map_of_mem _ hσ, ?_⟩
          simp [stripId, hso, hne]
        have hndfilter : (msgIds ((s.summaries.map (stripId id)).filter
            (fun σ => ¬ σ.summaryOf = some []))).Nodup := by
          have hsub : List.Sublist
              (msgIds ((s.summaries.map (stripId id)).filter
                (fun σ => ¬ σ.summaryOf = some [])))
              (msgIds (s.summaries.map (stripId id))) :=
            List.Sublist.map _ (List.filter_sublist _)
          have heq : msgIds (s.summaries.map (stripId id)) = msgIds s.summaries := by
            simp [msgIds, stripId]
          exact List.Nodup.sublist hsub (heq ▸ hsumids)
        have := mapGet_of_mem_nodup _ _ hmemstrip hndfilter
        have hid' : (stripId id σ).id = σ.id := rfl
        rw [hid'] at this
        rw [this]
        simp [stripId, hso]
      · intro hmem
        rw [List.length_erase_of_mem hmem]
        have : l.length ≠ 0 := by
          intro hc
          rw [List.length_eq_zero] at hc
          subst hc
          exact absurd hmem (List.not_mem_nil id)
        omega
  · have hexf : mapHas s.messages id = false := by
      simpa using hex
    have hred := deleteMessage_notfound now id s hexf
    refine ⟨by rw [hred]; simp [hexf], ?_, ?_⟩
    · intro h
      rw [h] at hexf
      exact absurd hexf (by simp)
    · intro _
      rw [hred]
      exact ⟨rfl, rfl, rfl⟩

/-- Witness for C6 at a concrete session: deleting `msg-1` (covered by a
sole-coverage summary and by a two-message summary) removes it from the
raw collection. -/
theorem deleteMessage_spec_witness :
    mapHas (deleteMessage 9 "msg-1"
      { emptySession with
        messages := [mkMsg "msg-1" Role.user "A" 1 1,
          mkMsg "msg-2" Role.user "B" 1 2]
        summaries := [mkMsg "msg-3" Role.summary "S1" 1 3 (some ["msg-1"]),
          mkMsg "msg-4" Role.summary "S2" 1 4 (some ["msg-1", "msg-2"])]
        messageCounter := 4
        messageOrder := ["msg-1", "msg-3", "msg-2", "msg-4"] }).2.messages
      "msg-1" = false := by
  have h := deleteMessage_spec
    { emptySession with
      messages := [mkMsg "msg-1" Role.user "A" 1 1,
        mkMsg "msg-2" Role.user "B" 1 2]
      summaries := [mkMsg "msg-3" Role.summary "S1" 1 3 (some ["msg-1"]),
        mkMsg "msg-4" Role.summary "S2" 1 4 (some ["msg-1", "msg-2"])]
      messageCounter := 4
      messageOrder := ["msg-1", "msg-3", "msg-2", "msg-4"] }
    9 "msg-1" (by decide) (by decide) (by decide)
    (by
      intro σ hσ l hl
      simp only [List.mem_cons, List.mem_singleton, List.not_mem_nil,
        or_false] at hσ
      rcases hσ with rfl | rfl
      · simp only [mkMsg, Option.some_inj] at hl
        subst hl
        decide
      · simp only [mkMsg, Option.some_inj] at hl
        subst hl
        decide)
  exact (h.2.1 (by decide)).1

-- ─── C4: system messages pinned by buildPrompt ───────────────────────────

/-- C4. Whatever `buildPrompt` returns (for any window limit, however
small, and any fallback flag), the returned list starts with exactly the
system-role messages of the compacted history, in full and in order,
before all other content; and with the default `fallbackToTruncation =
true` it always returns a list (never throws). -/
theorem buildPrompt_ok_prefix (fresh : String) (now limit : Nat)
    (fb : Bool) (s : Session) (out : List Message × Session)
    (h : buildPrompt fresh now limit fb s = Except.ok out) :
    ∃ rest, out.1
      = (getCompactedMessages s).filter (fun m => m.role = Role.system)
          ++ rest := by
  unfold buildPrompt at h
  dsimp only at h
  split at h
  · cases h
    exact ⟨_, rfl⟩
  · split at h
    · cases h
      exact ⟨[], (List.append_nil _).symm⟩
    · split at h
      · cases h
        exact ⟨_, rfl⟩
      · split at h
        · split at h
          · cases h
            exact ⟨_, rfl⟩
          · split at h
            · cases h
              exact ⟨_, rfl⟩
            · cases h
        · split at h
          · split at h
            · cases h
              exact ⟨_, rfl⟩
            · cases h
          · cases h
            exact ⟨_, rfl⟩

theorem buildPrompt_total (fresh : String) (now limit : Nat) (s : Session) :
    ∃ out, buildPrompt fresh now limit true s = Except.ok out := by
  unfold buildPrompt
  dsimp only
  split
  · exact ⟨_, rfl⟩
  · split
    · exact ⟨_, rfl⟩
    · split
      · exact ⟨_, rfl⟩
      · split
        · split
          · exact ⟨_, rfl⟩
          · split
            · exact ⟨_, rfl⟩
            · exact absurd rfl (by assumption)
        · split
          · split
            · exact ⟨_, rfl⟩
            · exact absurd rfl (by assumption)
          · exact ⟨_, rfl⟩


/-- C4. Whatever `buildPrompt` returns (for any window limit, however
small, and any fallback flag), the returned list starts with exactly the
system-role messages of the compacted history, in full and in order,
before all other content; and with the default `fallbackToTruncation =
true` it always returns a list (never throws). -/
theorem buildPrompt_system_pinning :
    (∀ (fresh : String) (now limit : Nat) (fb : Bool) (s : Session)
        (out : List Message × Session),
      buildPrompt fresh now limit fb s = Except.ok out →
      ∃ rest, out.1
        = (getCompactedMessages s).filter (fun m => m.role = Role.system)
            ++ rest) ∧
    (∀ (fresh : String) (now limit : Nat) (s : Session),
      ∃ out, buildPrompt fresh now limit true s = Except.ok out) :=
  ⟨fun fresh now limit fb s out h =>
      buildPrompt_ok_prefix fresh now limit fb s out h,
    fun fresh now limit s => buildPrompt_total fresh now limit s⟩

/-- Witness for C4: one system message plus user messages against window
limit 1 — the system message is present and first. -/
theorem buildPrompt_system_pinning_witness :
    ∃ out, buildPrompt "u" 9 1 true
        { emptySession with
          messages := [mkMsg "msg-1" Role.system "Sys" 5 1,
            mkMsg "msg-2" Role.user "U1" 2 2, mkMsg "msg-3" Role.user "U2" 2 3]
          messageCounter := 3
          messageOrder := ["msg-1", "msg-2", "msg-3"] }
      = Except.ok out ∧
    ∃ rest, out.1
      = (getCompactedMessages
          { emptySession with
            messages := [mkMsg "msg-1" Role.system "Sys" 5 1,
              mkMsg "msg-2" Role.user "U1" 2 2, mkMsg "msg-3" Role.user "U2" 2 3]
            messageCounter := 3
            messageOrder := ["msg-1", "msg-2", "msg-3"] }).filter
          (fun m => m.role = Role.system) ++ rest := by
  obtain ⟨out, hout⟩ := buildPrompt_system_pinning.2 "u" 9 1
    { emptySession with
      messages := [mkMsg "msg-1" Role.system "Sys" 5 1,
        mkMsg "msg-2" Role.user "U1" 2 2, mkMsg "msg-3" Role.user "U2" 2 3]
      messageCounter := 3
      messageOrder := ["msg-1", "msg-2", "msg-3"] }
  exact ⟨out, hout, buildPrompt_system_pinning.1 _ _ _ _ _ _ hout⟩

-- ─── C8: buildPrompt throws exactly on an over-budget summary ────────────

theorem buildPrompt_error_implies (fresh : String) (now limit : Nat)
    (fb : Bool) (s : Session) (e : String)
    (h : buildPrompt fresh now limit fb s = Except.error e) :
    fb = false ∧ promptOverBudget limit s := by
  cases fb
  case true =>
    obtain ⟨out, hout⟩ := buildPrompt_total fresh now limit s
    rw [h] at hout
    cases hout
  case false =>
    refine ⟨rfl, ?_⟩
    unfold buildPrompt at h
    dsimp only at h
    unfold promptOverBudget
    dsimp only
    split at h
    · cases h
    · split at h
      · cases h
      · split at h
        · cases h
        · split at h
          · split at h
            · cases h
            · split at h
              · cases h
              · rename_i heqfn husable hoverflow scrut e' hexist hetok hfb
                rw [if_neg husable, if_neg hoverflow]
                exact hetok
          · split at h
            · split at h
              · cases h
              · rename_i heqfn husable hoverflow scrut hexist hbig hfb
                rw [if_neg husable, if_neg hoverflow]
                exact hbig
            · cases h

theorem buildPrompt_overbudget_implies (fresh : String) (now limit : Nat)
    (s : Session) (hover : promptOverBudget limit s) :
    ∃ e, buildPrompt fresh now limit false s = Except.error e := by
  unfold promptOverBudget at hover
  unfold buildPrompt
  dsimp only at hover ⊢
  split at hover
  · exact hover.elim
  · split at hover
    · exact hover.elim
    · split at hover
      · exact hover.elim
      · rename_i heqfn husable hoverflow
        split at hover
        · rename_i scrut e' hexist
          rw [if_neg husable, if_neg hoverflow, if_neg hover,
            if_neg Bool.false_ne_true]
          exact ⟨_, rfl⟩
        · rename_i scrut hexist
          rw [if_neg husable, if_neg hoverflow, if_pos hover,
            if_neg Bool.false_ne_true]
          exact ⟨_, rfl⟩

/-- C8. Assuming the injected summarizer hook is a total function (it
does not itself throw), `buildPrompt` throws if and only if the summary
consulted on its path — a matching existing summary, or the freshly
generated one — costs strictly more than the reserved budget *and*
`fallbackToTruncation` is false; in every other case (in particular
whenever `fallbackToTruncation` is true) it returns a message list. -/
theorem buildPrompt_error_iff (fresh : String) (now limit : Nat)
    (fb : Bool) (s : Session) :
    (∃ e, buildPrompt fresh now limit fb s = Except.error e)
      ↔ (fb = false ∧ promptOverBudget limit s) := by
  constructor
  · rintro ⟨e, h⟩
    exact buildPrompt_error_implies fresh now limit fb s e h
  · rintro ⟨hfb, hover⟩
    subst hfb
    exact buildPrompt_overbudget_implies fresh now limit s hover

-- ─── C9: lastModifiedAt monotonicity ─────────────────────────────────────

theorem bumpModified_gt (now : Nat) (s : Session) :
    s.lastModifiedAt < (bumpModified now s).lastModifiedAt := by
  unfold bumpModified
  dsimp only
  split <;> omega

theorem deleteSummary_lastModified (now : Nat) (id : String) (s : Session) :
    s.lastModifiedAt < ((deleteSummary now id s).2).lastModifiedAt := by
  unfold deleteSummary
  dsimp only
  split
  · exact bumpModified_gt now _
  · exact bumpModified_gt now s

theorem cleanupSummaries_lastModified (now : Nat) (delId : String)
    (ids : List String) :
    ∀ s : Session,
      s.lastModifiedAt ≤ (cleanupSummaries now delId ids s).lastModifiedAt := by
  induction ids with
  | nil => intro s; exact Nat.le_refl _
  | cons sid rest ih =>
    intro s
    rw [cleanupSummaries]
    rcases hget : mapGet s.summaries sid with _ | sum
    · exact ih s
    · dsimp only
      split
      · have h2 := deleteSummary_lastModified now sid
          { s with summaries := s.summaries.map (fun m =>
              if m.id = sid then
                { sum with summaryOf := sum.summaryOf.map (fun l => l.erase delId) }
              else m) }
        have h1 := ih ((deleteSummary now sid
          { s with summaries := s.summaries.map (fun m =>
              if m.id = sid then
                { sum with summaryOf := sum.summaryOf.map (fun l => l.erase delId) }
              else m) }).2)
        exact Nat.le_trans (Nat.le_of_lt h2) h1
      · exact ih { s with summaries := s.summaries.map (fun m =>
          if m.id = sid then
            { sum with summaryOf := sum.summaryOf.map (fun l => l.erase delId) }
          else m) }

theorem applyMutOp_lastModified_lt (op : MutOp) (t : Nat) (s : Session)
    (hrej : ¬ rejectedSummaryAdd op s) :
    s.lastModifiedAt < (applyMutOp op t s).lastModifiedAt := by
  cases op with
  | addMessageOp fresh m =>
    show s.lastModifiedAt < (addMessage fresh t m s).lastModifiedAt
    unfold addMessage
    by_cases hrole : isSummaryMessage m = true
    · rw [if_pos hrole]
      unfold addSummary addSummaryCore
      rw [if_neg (by
        intro hc
        exact hrej ⟨by simpa [isSummaryMessage] using hrole, hc.1, hc.2⟩)]
      obtain ⟨cnt, hsnd⟩ := generateMessageId_state fresh s
      rcases hgen : generateMessageId fresh s with ⟨nid, s₁⟩
      rw [hgen] at hsnd
      subst hsnd
      exact bumpModified_gt t _
    · rw [if_neg hrole]
      obtain ⟨cnt, hsnd⟩ := generateMessageId_state fresh s
      rcases hgen : generateMessageId fresh s with ⟨nid, s₁⟩
      rw [hgen] at hsnd
      subst hsnd
      exact bumpModified_gt t _
  | addSummaryOp fresh m =>
    show s.lastModifiedAt < (addSummary fresh t m s).lastModifiedAt
    unfold addSummary addSummaryCore
    rw [if_neg (by intro hc; exact hrej ⟨hc.1, hc.2⟩)]
    obtain ⟨cnt, hsnd⟩ := generateMessageId_state fresh s
    rcases hgen : generateMessageId fresh s with ⟨nid, s₁⟩
    rw [hgen] at hsnd
    subst hsnd
    exact bumpModified_gt t _
  | editMessageOp id m => exact bumpModified_gt t _
  | deleteMessageOp id =>
    show s.lastModifiedAt < ((deleteMessage t id s).2).lastModifiedAt
    unfold deleteMessage
    dsimp only
    split
    · have h1 := cleanupSummaries_lastModified t id
        (s.summaries.map (fun m => m.id))
        { s with
          messages := mapDelete s.messages id
          messageOrder := removeFirst s.messageOrder id }
      exact Nat.lt_of_le_of_lt h1 (bumpModified_gt t _)
    · exact bumpModified_gt t s
  | deleteSummaryOp id => exact deleteSummary_lastModified t id s
  | setMessagesOp ms => exact bumpModified_gt t _
  | setSummariesOp ms => exact bumpModified_gt t _
  | clearMessagesOp => exact bumpModified_gt t _
  | clearSummariesOp => exact bumpModified_gt t _

/-- Counterexample to C9: an `addMessage` (bumping the stamp) followed by
an `addSummary` whose 10-token summary the oversized gate rejects against
the 5-token window limit — the second "mutating operation" returns
without bumping, so `lastModifiedAt` does not strictly increase. -/
theorem lastModified_monotone_cex :
    ¬ (applyMutOp (MutOp.addMessageOp "u" (mkMsg "" Role.user "hi" 1 1)) 5
          { emptySession with windowTokenLimit := 5 }).lastModifiedAt
        < (applyMutOp (MutOp.addSummaryOp "u" (mkMsg "" Role.summary "big" 10 2)) 7
            (applyMutOp (MutOp.addMessageOp "u" (mkMsg "" Role.user "hi" 1 1)) 5
              { emptySession with windowTokenLimit := 5 })).lastModifiedAt := by
  decide

/-- C9 (amended). For every pair of consecutive mutating operations and
any clock values (even within the same millisecond), `lastModifiedAt`
after the second operation is strictly greater than after the first —
*except* when the second call is a summary add rejected by the
oversized-summary gate, which returns without bumping the stamp. -/
theorem lastModified_monotone (op₁ op₂ : MutOp) (t₁ t₂ : Nat) (s : Session)
    (hrej : ¬ rejectedSummaryAdd op₂ (applyMutOp op₁ t₁ s)) :
    (applyMutOp op₁ t₁ s).lastModifiedAt
      < (applyMutOp op₂ t₂ (applyMutOp op₁ t₁ s)).lastModifiedAt :=
  applyMutOp_lastModified_lt op₂ t₂ (applyMutOp op₁ t₁ s) hrej

/-- Witness for the amended C9: two adds at the same clock value still
produce strictly increasing stamps. -/
theorem lastModified_monotone_witness :
    (applyMutOp (MutOp.addMessageOp "u" (mkMsg "" Role.user "hi" 1 1)) 5
        emptySession).lastModifiedAt
      < (applyMutOp (MutOp.addMessageOp "u" (mkMsg "" Role.user "yo" 1 2)) 5
          (applyMutOp (MutOp.addMessageOp "u" (mkMsg "" Role.user "hi" 1 1)) 5
            emptySession)).lastModifiedAt :=
  lastModified_monotone (MutOp.addMessageOp "u" (mkMsg "" Role.user "hi" 1 1))
    (MutOp.addMessageOp "u" (mkMsg "" Role.user "yo" 1 2)) 5 5 emptySession
    (fun h => absurd h.1 (by decide))

-- ─── C3: clone shares summaryOf sets with the source ─────────────────────

/-- C3 evaluated at the failing input. `clone` copies each message and
summary record with the spread `{ ...msg }`, which copies the `summaryOf`
*reference*; after cloning, `deleteMessage("msg-1")` on the clone runs
`summary.summaryOf?.delete("msg-1")` on the shared `Set` object, so the
*source* session — whose own records were never touched and still hold
reference `0` — observes its summary's coverage shrink from
`{"msg-1", "msg-2"}` to `{"msg-2"}`, contradicting the documented
independence of clones. -/
theorem clone_deleteMessage_mutates_source :
    cloneBugSource.summaries
      = [{ id := "msg-3", role := Role.summary, content := "S", tokens := 1,
           timestamp := 3, summaryOf := some 0 }] ∧
    storeGet cloneBugStore 0 = ["msg-1", "msg-2"] ∧
    storeGet (deleteMessageRef "msg-1" (cloneRef cloneBugSource)
        cloneBugStore).2 0
      = ["msg-2"] := by
  refine ⟨rfl, rfl, ?_⟩
  rfl
